import Mathlib

/-!
# Verification of the gofpdf core (fpdf.go)

A shallow embedding, in Lean 4, of the parts of `fpdf.go` that the frozen
claims C1..C10 are about: the document state (`Fpdf` struct), the sticky
error latch, the page/content buffers, the serializer (`newobj`,
`putpages`, `putresources`, `enddoc`, `Close`, `Output`), the font
registration path (`AddFont` with its encoding-difference interning), the
bounded multi-line layout scan of `MultiCell`, and the PNG alpha
de-interleaving of `parsepngstream`.

Modelling conventions, used throughout and noted per definition:
* Go `float64` values are embedded as exact rationals `ℚ`; the claims
  under study are about the formulas computed, not about binary rounding.
* Byte strings are embedded as Lean `String`s of Latin-1 characters;
  a `String`'s `length` plays the role of Go's byte length.  Raw byte
  data (text scanned by `MultiCell`, PNG pixel data) is embedded as
  `List ℕ` of byte values.
* Go maps are embedded as association lists; Go's nondeterministic map
  iteration order becomes the list order.
* Go slice indexing/assignment that can be out of range is embedded with
  `Option`: a `none` result models a runtime panic.
* File I/O (font definition files, font files) is embedded by storing the
  file contents in the state; the system clock used by `putinfo` is an
  explicit `now` parameter; the zlib compressor `sliceCompress` (defined
  in this repository outside `fpdf.go`) is an explicit function parameter
  `zc`.
-/

set_option allowUnsafeReducibility true
attribute [local semireducible] Rat.add Rat.mul Rat.div Rat.sub Rat.neg Rat.inv Rat.floor
  Rat.ceil

namespace GoFpdf

/-! ## Decimal formatting (embeds Go's `%d`, `%010d`, `%.Nf` verbs) -/

/-- The decimal digit character for `n % 10`. -/
def digitChar (n : ℕ) : Char := Char.ofNat (48 + n % 10)

/-- Structurally recursive core of `decChars` (`n` itself bounds the
number of divisions by 10). -/
def decCharsAux : ℕ → ℕ → List Char
  | 0, n => [digitChar n]
  | fuel + 1, n =>
    if n < 10 then [digitChar n]
    else decCharsAux fuel (n / 10) ++ [digitChar (n % 10)]

/-- Decimal digit characters of `n`, most significant first (embeds the
decimal rendering done by Go's `fmt` for the `%d` verb on a natural). -/
def decChars (n : ℕ) : List Char := decCharsAux n n

/-- Decimal string of a natural number (Go `%d`). -/
def natStr (n : ℕ) : String := ⟨decChars n⟩

/-- Decimal string of an integer (Go `%d` on `int`). -/
def intStr (z : ℤ) : String :=
  if z < 0 then "-" ++ natStr z.natAbs else natStr z.natAbs

/-- `n` rendered zero-padded to (at least) 10 decimal digits
(Go `%010d`), as used for cross-reference records. -/
def pad10 (n : ℕ) : String :=
  ⟨List.replicate (10 - (decChars n).length) '0' ++ decChars n⟩

/-- Fixed-point rendering of a rational with `prec` digits after the
point: embeds Go's `%.2f` / `%.3f` on our exact-rational reading of
`float64`.  Go rounds the binary float to decimal with ties-to-even; on
exact rationals we use `round` (ties away from half never arise in the
values the development evaluates). -/
def fmtFixed (prec : ℕ) (q : ℚ) : String :=
  let m : ℕ := (round (|q| * (10 : ℚ) ^ prec)).toNat
  let ip := m / 10 ^ prec
  let fp := m % 10 ^ prec
  let fracStr : String := ⟨List.replicate (prec - (decChars fp).length) '0' ++ decChars fp⟩
  (if q < 0 then "-" else "") ++ natStr ip ++
    (if prec = 0 then "" else "." ++ fracStr)

theorem decCharsAux_ne_nil (fuel n : ℕ) : decCharsAux fuel n ≠ [] := by
  cases fuel with
  | zero => simp [decCharsAux]
  | succ fuel =>
    rw [decCharsAux]
    split <;> simp

theorem decChars_ne_nil (n : ℕ) : decChars n ≠ [] := decCharsAux_ne_nil n n

theorem decCharsAux_length_le :
    ∀ fuel n k : ℕ, n < 10 ^ (k + 1) → (decCharsAux fuel n).length ≤ k + 1 := by
  intro fuel
  induction fuel with
  | zero =>
    intro n k _
    simp [decCharsAux]
  | succ fuel ih =>
    intro n k hn
    rw [decCharsAux]
    by_cases h10 : n < 10
    · rw [if_pos h10]
      simp
    · rw [if_neg h10]
      cases k with
      | zero => simp at hn; omega
      | succ k =>
        simp only [List.length_append, List.length_cons, List.length_nil]
        have hd : n / 10 < 10 ^ (k + 1) := by
          rw [pow_succ] at hn
          omega
        have := ih (n / 10) k hd
        omega

theorem decChars_length_le (k n : ℕ) (hn : n < 10 ^ (k + 1)) :
    (decChars n).length ≤ k + 1 :=
  decCharsAux_length_le n n k hn

/-- A `%010d` rendering of a value below `10^10` is exactly 10 characters. -/
theorem pad10_length {n : ℕ} (h : n < 10 ^ 10) : (pad10 n).length = 10 := by
  have hle : (decChars n).length ≤ 10 := decChars_length_le 9 n h
  simp [pad10, String.length, hle]

/-! ## ASCII string helpers

Character-wise embeddings of `strings.ToUpper`, `strings.ToLower`,
`strings.Contains` (single-character pattern) and string slicing.  On
the ASCII strings the library manipulates (style letters, border sides,
orientation letters, size names) the character-wise ASCII mapping agrees
with Go's Unicode one. -/

def charUpper (c : Char) : Char :=
  if 97 ≤ c.toNat ∧ c.toNat ≤ 122 then Char.ofNat (c.toNat - 32) else c

def charLower (c : Char) : Char :=
  if 65 ≤ c.toNat ∧ c.toNat ≤ 90 then Char.ofNat (c.toNat + 32) else c

def strToUpper (s : String) : String := ⟨s.data.map charUpper⟩

def strToLower (s : String) : String := ⟨s.data.map charLower⟩

def strContainsChar (s : String) (c : Char) : Bool := s.data.contains c

def strTake (s : String) (n : ℕ) : String := ⟨s.data.take n⟩

/-- Go `<` on strings: lexicographic byte order. -/
def charsLt : List Char → List Char → Bool
  | [], [] => false
  | [], _ :: _ => true
  | _ :: _, [] => false
  | a :: as, b :: bs =>
    if a.toNat < b.toNat then true
    else if b.toNat < a.toNat then false
    else charsLt as bs

def strLt (a b : String) : Bool := charsLt a.data b.data

/-! ## Generic helpers: Go slices and Go maps -/

/-- Go slice element assignment `l[i] = a`: in range it updates in place,
out of range it panics (`none`).  Capacity is irrelevant: Go's indexing
panics whenever `i >= len(l)`. -/
def goSet {α : Type} (l : List α) (i : ℕ) (a : α) : Option (List α) :=
  if i < l.length then some (l.set i a) else none

/-- Go map lookup `m[k]` on an association list (first binding wins,
matching our embedding of map update below). -/
def assocGet {α : Type} (m : List (String × α)) (k : String) : Option α :=
  match m with
  | [] => none
  | (k', v) :: t => if k' = k then some v else assocGet t k

/-- Go map assignment `m[k] = v`: replace an existing binding in place,
otherwise append the new binding.  Go's map iteration order is
nondeterministic; this embedding fixes it to insertion order. -/
def assocSet {α : Type} (m : List (String × α)) (k : String) (v : α) : List (String × α) :=
  match m with
  | [] => [(k, v)]
  | (k', v') :: t => if k' = k then (k, v) :: t else (k', v') :: assocSet t k v

/-- Same, keyed by page number (for `f.pageSizes : map[int]sizeType`). -/
def iassocGet {α : Type} (m : List (ℕ × α)) (k : ℕ) : Option α :=
  match m with
  | [] => none
  | (k', v) :: t => if k' = k then some v else iassocGet t k

/-- Page-number-keyed map assignment. -/
def iassocSet {α : Type} (m : List (ℕ × α)) (k : ℕ) (v : α) : List (ℕ × α) :=
  match m with
  | [] => [(k, v)]
  | (k', v') :: t => if k' = k then (k, v) :: t else (k', v') :: iassocSet t k v

/-! ## The document state (`Fpdf` struct)

The fields carry the names of the Go struct fields they embed.  `float64`
fields are `ℚ`; buffers are lists of emitted chunks (each chunk is
followed by a newline when rendered, matching `Fpdf.out`); maps are
association lists.  Callback fields (`headerFnc`, `footerFnc`,
`acceptPageBreak`) are not represented: the embedding covers documents
with no registered header/footer callback, and `acceptPageBreak` is the
default closure from `New`, which returns `autoPageBreak`.  The font
directory (read by `loadfont`) and the clock (read by `putinfo`) are
explicit state/parameters since file and clock I/O are outside the
embedding. -/

/-- `sizeType`: page dimensions. -/
structure SizeType where
  wd : ℚ
  ht : ℚ
deriving DecidableEq

/-- `linkType`: a placed link annotation on a page. -/
structure LinkType where
  x : ℚ
  y : ℚ
  wd : ℚ
  ht : ℚ
  link : ℕ
  linkStr : String
deriving DecidableEq

/-- `intLinkType`: target of an internal link. -/
structure IntLinkType where
  page : ℕ
  y : ℚ
deriving DecidableEq

/-- `fontBoxType`: font bounding box. -/
structure FontBoxType where
  Xmin : ℤ
  Ymin : ℤ
  Xmax : ℤ
  Ymax : ℤ
deriving DecidableEq

/-- `fontDescType`: font descriptor. -/
structure FontDescType where
  Ascent : ℤ
  Descent : ℤ
  CapHeight : ℤ
  Flags : ℤ
  FontBBox : FontBoxType
  ItalicAngle : ℤ
  StemV : ℤ
  MissingWidth : ℤ
deriving DecidableEq

/-- `fontDefType`: a font definition record (the JSON file's contents).
`Cw` is the 256-entry character-width table, embedded as a list. -/
structure FontDefType where
  Tp : String
  Name : String
  Desc : FontDescType
  Up : ℤ
  Ut : ℤ
  Cw : List ℤ
  File : String
  Size1 : ℤ
  Size2 : ℤ
  OriginalSize : ℤ
  I : ℕ
  N : ℕ
  DiffN : ℕ
  Diff : String
deriving DecidableEq

/-- `fontFileType`: embedded-font-file bookkeeping. -/
structure FontFileType where
  length1 : ℤ
  length2 : ℤ
  n : ℕ
deriving DecidableEq

/-- `imageInfoType`: a registered image resource.  Byte payloads are
Latin-1 strings.  `smask = none` embeds a nil Go slice (no alpha),
distinguishing it from an empty one as `putimage` does. -/
structure ImageInfoType where
  data : String
  smask : Option String
  i : ℕ
  n : ℕ
  w : ℚ
  h : ℚ
  cs : String
  pal : String
  bpc : ℕ
  f : String
  dp : String
  trns : List ℕ
deriving DecidableEq

/-- The `Fpdf` struct. -/
structure Doc where
  page : ℕ
  n : ℕ
  offsets : List ℕ
  buffer : List String
  pages : List (List String)
  state : ℕ
  fonts : List (String × FontDefType)
  fontFiles : List (String × FontFileType)
  diffs : List String
  images : List (String × ImageInfoType)
  pageLinks : List (List LinkType)
  links : List IntLinkType
  pageSizes : List (ℕ × SizeType)
  inHeader : Bool
  inFooter : Bool
  lasth : ℚ
  fontFamily : String
  fontStyle : String
  fontSizePt : ℚ
  fontSize : ℚ
  underline : Bool
  drawColor : String
  fillColor : String
  textColor : String
  colorFlag : Bool
  ws : ℚ
  fontpath : String
  fontDir : List (String × FontDefType)
  fontFileDir : List (String × String)
  stdpageSizes : List (String × SizeType)
  defPageSize : SizeType
  curPageSize : SizeType
  defOrientation : String
  curOrientation : String
  k : ℚ
  w : ℚ
  h : ℚ
  wPt : ℚ
  hPt : ℚ
  lMargin : ℚ
  tMargin : ℚ
  rMargin : ℚ
  bMargin : ℚ
  cMargin : ℚ
  lineWidth : ℚ
  capStyle : ℕ
  autoPageBreak : Bool
  pageBreakTrigger : ℚ
  zoomMode : String
  layoutMode : String
  compress : Bool
  pdfVersion : String
  aliasNbPagesStr : String
  x : ℚ
  y : ℚ
  title : String
  subject : String
  author : String
  keywords : String
  creator : String
  currentFont : FontDefType
  err : Option String
deriving DecidableEq

/-! ## Buffer primitives (`out`, `newobj`, `putstream`) -/

/-- Byte length of a buffer: each chunk is written followed by a
newline (`Fpdf.out` does `WriteString(s); WriteString("\n")`), so the
rendered length is the sum of chunk lengths plus one per chunk. -/
def bufLen (b : List String) : ℕ := (b.map (fun s => s.length + 1)).sum

/-- Render a buffer to the byte string `bytes.Buffer` would hold. -/
def render (b : List String) : String := String.join (b.map (· ++ "\n"))

/-- `Fpdf.out`: append a line to the current page buffer when a page is
open (`state == 2`), else to the document buffer.  The page index is
always in range in reachable states (`beginpage` appends a buffer as it
increments `page`); like Go, the write targets `pages[page]`. -/
def Doc.out (d : Doc) (s : String) : Doc :=
  if d.state = 2 then
    { d with pages := d.pages.set d.page ((d.pages.getD d.page []) ++ [s]) }
  else
    { d with buffer := d.buffer ++ [s] }

/-- Grow `offsets` with zeros while `len(offsets) <= n` (the loop at the
start of `newobj`). -/
def growOffsets (offsets : List ℕ) (n : ℕ) : List ℕ :=
  offsets ++ List.replicate (n + 1 - offsets.length) 0

/-- `Fpdf.newobj`: reserve the next object number, record the current
document-buffer byte length as its offset, and emit the object header. -/
def Doc.newobj (d : Doc) : Doc :=
  let n := d.n + 1
  let offs := (growOffsets d.offsets n).set n (bufLen d.buffer)
  Doc.out { d with n := n, offsets := offs } (natStr n ++ " 0 obj")

/-- `Fpdf.putstream`: emit a stream body. -/
def Doc.putstream (d : Doc) (b : String) : Doc :=
  ((d.out "stream").out b).out "endstream"

theorem bufLen_append (a b : List String) : bufLen (a ++ b) = bufLen a + bufLen b := by
  simp [bufLen]

/-! ## Colors, strings, fonts, pages, cells -/

/-- Zero value of `fontDefType` (what a failed `loadfont` leaves behind,
and what a missing Go map entry reads as). -/
def emptyFontDesc : FontDescType where
  Ascent := 0
  Descent := 0
  CapHeight := 0
  Flags := 0
  FontBBox := { Xmin := 0, Ymin := 0, Xmax := 0, Ymax := 0 }
  ItalicAngle := 0
  StemV := 0
  MissingWidth := 0

def emptyFontDef : FontDefType where
  Tp := ""
  Name := ""
  Desc := emptyFontDesc
  Up := 0
  Ut := 0
  Cw := []
  File := ""
  Size1 := 0
  Size2 := 0
  OriginalSize := 0
  I := 0
  N := 0
  DiffN := 0
  Diff := ""

/-- The core-font set installed by `New` (constant across documents). -/
def coreFonts : List String :=
  ["courier", "helvetica", "times", "symbol", "zapfdingbats"]

/-- `path.Join(dir, file)` for the cases the library exercises: `New`
defaults the font path to `".", and `path.Join(".", f) = f`. -/
def pathJoin (dir file : String) : String :=
  if dir = "" ∨ dir = "." then file else dir ++ "/" ++ file

/-- `strings.Replace(s, " ", "", -1)`. -/
def removeSpaces (s : String) : String := ⟨s.data.filter (· ≠ ' ')⟩

/-- `strings.Replace(s, "U", "", -1)` (style-string underline strip). -/
def removeU (s : String) : String := ⟨s.data.filter (· ≠ 'U')⟩

/-- A byte list rendered as a Latin-1 string (how the model prints `%s`
of scanned text bytes). -/
def bytesToStr (b : List ℕ) : String := ⟨b.map Char.ofNat⟩

/-- The `\\`, `(`, `)` escaping that `CellFormat` applies to cell text
(three sequential `strings.Replace` calls; since each pattern is a single
byte the per-byte expansion below is equivalent). -/
def escapeBytes (b : List ℕ) : List ℕ :=
  b.flatMap fun c =>
    if c = 92 then [92, 92]
    else if c = 40 then [92, 40]
    else if c = 41 then [92, 41]
    else [c]

/-- The `escape` function (same replacements plus `\r`), on strings, as
used by `textstring` for metadata and link URIs. -/
def escapeStr (s : String) : String :=
  ⟨s.data.flatMap fun c =>
    if c = '\\' then ['\\', '\\']
    else if c = '(' then ['\\', '(']
    else if c = ')' then ['\\', ')']
    else if c = '\r' then ['\\', 'r']
    else [c]⟩

/-- `Fpdf.textstring`: a parenthesised, escaped PDF string. -/
def textstring (s : String) : String := "(" ++ escapeStr s ++ ")"

/-- `blankCount`: the number of space bytes in a byte string. -/
def blankCount (b : List ℕ) : ℕ := (b.filter (· = 32)).length

/-- `colorValue`: RGB components scaled into [0,1]. -/
def colorValue (r g b : ℤ) : ℚ × ℚ × ℚ :=
  ((r : ℚ) / 255, (g : ℚ) / 255, (b : ℚ) / 255)

/-- `colorString`: the content-stream color operator string; gray scale
when the three components coincide. -/
def colorString (r g b : ℤ) (grayStr fullStr : String) : String :=
  let clr := colorValue r g b
  if r = g ∧ r = b then fmtFixed 3 clr.1 ++ " " ++ grayStr
  else fmtFixed 3 clr.1 ++ " " ++ fmtFixed 3 clr.2.1 ++ " " ++ fmtFixed 3 clr.2.2 ++ " " ++ fullStr

/-- `SetDrawColor`.  Note: unlike `CellFormat` and `AddFont`, this setter
performs no check of the error latch before mutating the state. -/
def Doc.setDrawColor (d : Doc) (r g b : ℤ) : Doc :=
  let d := { d with drawColor := colorString r g b "G" "RG" }
  if 0 < d.page then d.out d.drawColor else d

/-- `SetFillColor` (also latch-free). -/
def Doc.setFillColor (d : Doc) (r g b : ℤ) : Doc :=
  let d := { d with fillColor := colorString r g b "g" "rg" }
  let d := { d with colorFlag := d.fillColor ≠ d.textColor }
  if 0 < d.page then d.out d.fillColor else d

/-- `SetTextColor` (also latch-free). -/
def Doc.setTextColor (d : Doc) (r g b : ℤ) : Doc :=
  let d := { d with textColor := colorString r g b "g" "rg" }
  { d with colorFlag := d.fillColor ≠ d.textColor }

/-- `GetStringWidth` on Latin-1 text bytes: sum of width-table entries
scaled by `fontSize / 1000`. -/
def Doc.getStringWidth (d : Doc) (s : List ℕ) : ℚ :=
  (((s.map (fun c => d.currentFont.Cw.getD c 0)).sum : ℤ) : ℚ) * d.fontSize / 1000

/-- `dounderline`. -/
def Doc.dounderline (d : Doc) (x y : ℚ) (txt : List ℕ) : String :=
  let up : ℚ := (d.currentFont.Up : ℚ)
  let ut : ℚ := (d.currentFont.Ut : ℚ)
  let w := d.getStringWidth txt + d.ws * (blankCount txt : ℚ)
  fmtFixed 2 (x * d.k) ++ " " ++ fmtFixed 2 ((d.h - (y - up / 1000 * d.fontSize)) * d.k) ++ " " ++
    fmtFixed 2 (w * d.k) ++ " " ++ fmtFixed 2 (-ut / 1000 * d.fontSizePt) ++ " re f"

/-- `newLink`: record a clickable area on the current page. -/
def Doc.newLink (d : Doc) (x y w h : ℚ) (link : ℕ) (linkStr : String) : Doc :=
  { d with pageLinks := d.pageLinks.set d.page ((d.pageLinks.getD d.page []) ++
      [{ x := x * d.k, y := d.hPt - y * d.k, wd := w * d.k, ht := h * d.k,
         link := link, linkStr := linkStr }]) }

/-- `loadfont`: read a font definition file.  The filesystem is the
`fontDir` table in the state; a missing file sets the error latch and
returns the zero value, like a failed `ioutil.ReadFile`. -/
def Doc.loadfont (d : Doc) (fontStr : String) : Doc × FontDefType :=
  if d.err.isSome then (d, emptyFontDef)
  else
    match assocGet d.fontDir fontStr with
    | some fd => (d, fd)
    | none => ({ d with err := some ("open " ++ fontStr ++ ": no such file or directory") },
               emptyFontDef)

/-- `AddFont`: register a font definition under key family+style.  The
encoding-difference interning is translated literally: a table string
already in `f.diffs` reuses that index; a new one is written with
`f.diffs[n] = info.Diff` where `n = len(f.diffs)+1`, an out-of-range
slice write (`goSet` returns `none`, i.e. a runtime panic). -/
def Doc.addFont (d : Doc) (familyStr styleStr fileStr : String) : Option Doc :=
  if d.err.isSome then some d
  else
    let familyStr := strToLower familyStr
    let fileStr := if fileStr = "" then
        removeSpaces familyStr ++ strToLower styleStr ++ ".json" else fileStr
    let fileStr := pathJoin d.fontpath fileStr
    let styleStr := strToUpper styleStr
    let styleStr := if styleStr = "IB" then "BI" else styleStr
    let fontkey := familyStr ++ styleStr
    if (assocGet d.fonts fontkey).isSome then some d
    else
      let (d, info) := d.loadfont fileStr
      if d.err.isSome then some d
      else
        let info := { info with I := d.fonts.length + 1 }
        let step : Option (Doc × FontDefType) :=
          if 0 < info.Diff.length then
            match d.diffs.findIdx? (· = info.Diff) with
            | some j => some (d, { info with DiffN := j })
            | none =>
              let n := d.diffs.length + 1
              match goSet d.diffs n info.Diff with
              | none => none
              | some diffs' => some ({ d with diffs := diffs' }, { info with DiffN := n })
          else some (d, info)
        match step with
        | none => none
        | some (d, info) =>
          let d :=
            if 0 < info.File.length then
              let ff : FontFileType :=
                if info.Tp = "TrueType" then { length1 := info.OriginalSize, length2 := 0, n := 0 }
                else { length1 := info.Size1, length2 := info.Size2, n := 0 }
              { d with fontFiles := assocSet d.fontFiles info.File ff }
            else d
          some { d with fonts := assocSet d.fonts fontkey info }

/-- `SetFont`: select a font, auto-registering core fonts. -/
def Doc.setFont (d : Doc) (familyStr styleStr : String) (size : ℚ) : Option Doc :=
  if d.err.isSome then some d
  else
    let familyStr := if familyStr = "" then d.fontFamily else strToLower familyStr
    let styleStr := strToUpper styleStr
    let underline := strContainsChar styleStr 'U'
    let styleStr := if underline then removeU styleStr else styleStr
    let styleStr := if styleStr = "IB" then "BI" else styleStr
    let size := if size = 0 then d.fontSizePt else size
    let d := { d with underline := underline }
    if d.fontFamily = familyStr ∧ d.fontStyle = styleStr ∧ d.fontSizePt = size then some d
    else
      let fontkey := familyStr ++ styleStr
      let resolve : Option (Doc × String × String × String) :=
        if (assocGet d.fonts fontkey).isSome then some (d, familyStr, styleStr, fontkey)
        else
          let familyStr := if familyStr = "arial" then "helvetica" else familyStr
          if familyStr ∈ coreFonts then
            let styleStr := if familyStr = "symbol" ∨ familyStr = "zapfdingbats" then ""
              else styleStr
            let fontkey := familyStr ++ styleStr
            if (assocGet d.fonts fontkey).isSome then some (d, familyStr, styleStr, fontkey)
            else
              match d.addFont familyStr styleStr "" with
              | none => none
              | some d1 => some (d1, familyStr, styleStr, fontkey)
          else
            some ({ d with err := some ("Undefined font: " ++ familyStr ++ " " ++ styleStr) },
                  familyStr, styleStr, fontkey)
      match resolve with
      | none => none
      | some (d, familyStr, styleStr, fontkey) =>
        if d.err.isSome then some d
        else
          let d := { d with fontFamily := familyStr, fontStyle := styleStr,
                            fontSizePt := size, fontSize := size / d.k,
                            currentFont := (assocGet d.fonts fontkey).getD emptyFontDef }
          if 0 < d.page then
            some (d.out ("BT /F" ++ natStr d.currentFont.I ++ " " ++
              fmtFixed 2 d.fontSizePt ++ " Tf ET"))
          else some d

/-- `beginpage`. -/
def Doc.beginpage (d : Doc) (orientationStr : String) (size : SizeType) : Doc :=
  if d.err.isSome then d
  else
    let d := { d with page := d.page + 1, pages := d.pages ++ [[]],
                      pageLinks := d.pageLinks ++ [[]], state := 2,
                      x := d.lMargin, y := d.tMargin, fontFamily := "" }
    let orientationStr := if orientationStr = "" then d.defOrientation
      else strToUpper (strTake orientationStr 1)
    let d :=
      if orientationStr ≠ d.curOrientation ∨ size.wd ≠ d.curPageSize.wd ∨
          size.ht ≠ d.curPageSize.ht then
        let w := if orientationStr = "P" then size.wd else size.ht
        let h := if orientationStr = "P" then size.ht else size.wd
        { d with w := w, h := h, wPt := w * d.k, hPt := h * d.k,
                 pageBreakTrigger := h - d.bMargin,
                 curOrientation := orientationStr, curPageSize := size }
      else d
    if orientationStr ≠ d.defOrientation ∨ size.wd ≠ d.defPageSize.wd ∨
        size.ht ≠ d.defPageSize.ht then
      { d with pageSizes := iassocSet d.pageSizes d.page { wd := d.wPt, ht := d.hPt } }
    else d

/-- `endpage`. -/
def Doc.endpage (d : Doc) : Doc := { d with state := 1 }

/-- `AddPageFormat`.  The footer/header callbacks are absent in the class
of documents modelled (no callback registered), so only the state
snapshot/restore around them is translated.  A `none` result is a
propagated runtime panic from `AddFont`. -/
def Doc.addPageFormat (d : Doc) (orientationStr : String) (size : SizeType) : Option Doc :=
  if d.err.isSome then some d
  else
    let d := if d.state = 0 then { d with state := 1 } else d
    let familyStr := d.fontFamily
    let style := d.fontStyle ++ (if d.underline then "U" else "")
    let fontsize := d.fontSizePt
    let lw := d.lineWidth
    let dc := d.drawColor
    let fc := d.fillColor
    let tc := d.textColor
    let cf := d.colorFlag
    let d := if 0 < d.page then d.endpage else d
    let d := d.beginpage orientationStr size
    let d := d.out (natStr d.capStyle ++ " J")
    let d := Doc.out { d with lineWidth := lw } (fmtFixed 2 (lw * d.k) ++ " w")
    match (if familyStr ≠ "" then d.setFont familyStr style fontsize else some d) with
    | none => none
    | some d =>
      if familyStr ≠ "" ∧ d.err.isSome then some d
      else
        let d := { d with drawColor := dc }
        let d := if dc ≠ "0 G" then d.out dc else d
        let d := { d with fillColor := fc }
        let d := if fc ≠ "0 g" then d.out fc else d
        let d := { d with textColor := tc, colorFlag := cf }
        let d := if d.lineWidth ≠ lw then Doc.out { d with lineWidth := lw }
            (fmtFixed 2 (lw * d.k) ++ " w") else d
        match (if familyStr ≠ "" then d.setFont familyStr style fontsize else some d) with
        | none => none
        | some d =>
          if familyStr ≠ "" ∧ d.err.isSome then some d
          else
            let d := if d.drawColor ≠ dc then Doc.out { d with drawColor := dc } dc else d
            let d := if d.fillColor ≠ fc then Doc.out { d with fillColor := fc } fc else d
            some { d with textColor := tc, colorFlag := cf }

/-- `AddPage`. -/
def Doc.addPage (d : Doc) : Option Doc :=
  if d.err.isSome then some d
  else d.addPageFormat d.defOrientation d.defPageSize

/-- The border-line chunks that `CellFormat` appends for an explicit
side string (its `L`/`T`/`R`/`B` block). -/
def cellBorderChunks (borderStr : String) (left top right bottom : ℚ) : String :=
  (if strContainsChar borderStr 'L' then
    fmtFixed 2 left ++ " " ++ fmtFixed 2 top ++ " m " ++ fmtFixed 2 left ++ " " ++
      fmtFixed 2 bottom ++ " l S " else "") ++
  (if strContainsChar borderStr 'T' then
    fmtFixed 2 left ++ " " ++ fmtFixed 2 top ++ " m " ++ fmtFixed 2 right ++ " " ++
      fmtFixed 2 top ++ " l S " else "") ++
  (if strContainsChar borderStr 'R' then
    fmtFixed 2 right ++ " " ++ fmtFixed 2 top ++ " m " ++ fmtFixed 2 right ++ " " ++
      fmtFixed 2 bottom ++ " l S " else "") ++
  (if strContainsChar borderStr 'B' then
    fmtFixed 2 left ++ " " ++ fmtFixed 2 bottom ++ " m " ++ fmtFixed 2 right ++ " " ++
      fmtFixed 2 bottom ++ " l S " else "")

/-- `CellFormat`: emit one cell.  Text is Latin-1 bytes.  A `none`
result is a propagated runtime panic (only possible through the
automatic page break's `AddPageFormat`/`AddFont` chain). -/
def Doc.cellFormat (d : Doc) (w h : ℚ) (txt : List ℕ) (borderStr : String) (ln : ℕ)
    (alignStr : String) (fill : Bool) (link : ℕ) (linkStr : String) : Option Doc :=
  if d.err.isSome then some d
  else
    let borderStr := strToUpper borderStr
    let k := d.k
    let brk : Option Doc :=
      if d.y + h > d.pageBreakTrigger ∧ ¬d.inHeader ∧ ¬d.inFooter ∧ d.autoPageBreak then
        let x := d.x
        let ws := d.ws
        let d := if 0 < ws then Doc.out { d with ws := 0 } "0 Tw" else d
        match d.addPageFormat d.curOrientation d.curPageSize with
        | none => none
        | some d1 =>
          if d1.err.isSome then some d1
          else
            let d1 := { d1 with x := x }
            some (if 0 < ws then Doc.out { d1 with ws := ws } (fmtFixed 3 (ws * k) ++ " Tw")
              else d1)
      else some d
    match brk with
    | none => none
    | some d =>
      if d.err.isSome then some d
      else
        let w := if w = 0 then d.w - d.rMargin - d.x else w
        let s : String :=
          if fill ∨ borderStr = "1" then
            let op := if fill then (if borderStr = "1" then "B" else "f") else "S"
            fmtFixed 2 (d.x * k) ++ " " ++ fmtFixed 2 ((d.h - d.y) * k) ++ " " ++
              fmtFixed 2 (w * k) ++ " " ++ fmtFixed 2 (-h * k) ++ " re " ++ op ++ " "
          else ""
        let s :=
          if 0 < borderStr.length ∧ borderStr ≠ "1" then
            s ++ cellBorderChunks borderStr (d.x * k) ((d.h - d.y) * k)
              ((d.x + w) * k) ((d.h - (d.y + h)) * k)
          else s
        let dx : ℚ :=
          if alignStr = "R" then w - d.cMargin - d.getStringWidth txt
          else if alignStr = "C" then (w - d.getStringWidth txt) / 2
          else d.cMargin
        let (d, s) :=
          if 0 < txt.length then
            let s := if d.colorFlag then s ++ "q " ++ d.textColor ++ " " else s
            let s := s ++ "BT " ++ fmtFixed 2 ((d.x + dx) * k) ++ " " ++
              fmtFixed 2 ((d.h - (d.y + (1/2) * h + (3/10) * d.fontSize)) * k) ++
              " Td (" ++ bytesToStr (escapeBytes txt) ++ ") Tj ET"
            let s := if d.underline then
                s ++ " " ++ d.dounderline (d.x + dx) (d.y + (1/2) * h + (3/10) * d.fontSize) txt
              else s
            let s := if d.colorFlag then s ++ " Q" else s
            let d := if 0 < link ∨ 0 < linkStr.length then
                d.newLink (d.x + dx) (d.y + (1/2) * h - (1/2) * d.fontSize)
                  (d.getStringWidth txt) d.fontSize link linkStr
              else d
            (d, s)
          else (d, s)
        let d := if 0 < s.length then d.out s else d
        let d := { d with lasth := h }
        if 0 < ln then
          some { d with y := d.y + h, x := if ln = 1 then d.lMargin else d.x }
        else some { d with x := d.x + w }

/-! ## The serializer (`putpages` .. `enddoc`, `Close`, `Output`)

The zlib compressor `sliceCompress` lives in this repository outside
`fpdf.go`; serializer functions take it as an explicit parameter
`zc : String → String`.  The clock read by `putinfo` is the parameter
`now`. -/

/-- Go `int(q)` on a `float64`: truncation toward zero. -/
def ratTrunc (q : ℚ) : ℤ := q.num / q.den

/-- Go string slicing `s[a:b]` (panic modelled as `none`). -/
def goSubstr (s : String) (a b : ℤ) : Option String :=
  if 0 ≤ a ∧ a ≤ b ∧ b ≤ (s.length : ℤ) then
    some ⟨(s.data.drop a.toNat).take (b - a).toNat⟩
  else none

/-- `FPDF_VERSION`.  Modelled from the spec: the version constant is
defined in this repository outside `fpdf.go`; the file header comment
says `Version: 1.7`. -/
def FPDF_VERSION : String := "1.7"

/-- The total-page-count alias substitution at the start of `putpages`.
The source checks `strings.Contains` before replacing, a no-op
optimisation; replacement on the unused 0th dummy buffer is harmless
(it is empty in reachable states). -/
def aliasApply (d : Doc) : Doc :=
  if 0 < d.aliasNbPagesStr.length then
    let nbStr := natStr d.page
    { d with pages := d.pages.map (fun pg => pg.map
        (fun s => s.replace d.aliasNbPagesStr nbStr)) }
  else d

/-- The common `/Rect`-and-`/Border` prefix of a link annotation. -/
def annotRect (pl : LinkType) : String :=
  "<</Type /Annot /Subtype /Link /Rect [" ++ fmtFixed 2 pl.x ++ " " ++
    fmtFixed 2 pl.y ++ " " ++ fmtFixed 2 (pl.x + pl.wd) ++ " " ++
    fmtFixed 2 (pl.y - pl.ht) ++ "] /Border [0 0 0] "

/-- One link annotation dictionary, as `putpages` prints it.  For an
internal link the target page height is the target page's override size
when present, else the default page height `hPt`; the emitted ordinate
is `h - l.y * k`.  `none` models the panic of `f.links[pl.link]` on a
dangling index. -/
def annotStr (links : List IntLinkType) (pageSizes : List (ℕ × SizeType)) (hPt k : ℚ)
    (pl : LinkType) : Option String :=
  let rect := annotRect pl
  if pl.link = 0 then
    some (rect ++ "/A <</S /URI /URI " ++ textstring pl.linkStr ++ ">>>>")
  else
    match links.get? pl.link with
    | none => none
    | some l =>
      let h := match iassocGet pageSizes l.page with
        | some sz => sz.ht
        | none => hPt
      some (rect ++ "/Dest [" ++ natStr (1 + 2 * l.page) ++ " 0 R /XYZ 0 " ++
        fmtFixed 2 (h - l.y * k) ++ " null]>>")

/-- The `/Annots [...]` line for one page's link list. -/
def annotsLine (links : List IntLinkType) (pageSizes : List (ℕ × SizeType)) (hPt k : ℚ)
    (pls : List LinkType) : Option String :=
  (pls.foldl (fun acc pl => acc.bind (fun s =>
      (annotStr links pageSizes hPt k pl).map (s ++ ·)))
    (some "/Annots [")).map (· ++ "]")

/-- The page-object and contents-object emission for page `pg` (the body
of the per-page loop of `putpages`). -/
def pageObjEmit (zc : String → String) (hPt : ℚ) (d : Doc) (pg : ℕ) : Option Doc :=
  let d := d.newobj
  let d := d.out "<</Type /Page"
  let d := d.out "/Parent 1 0 R"
  let d := match iassocGet d.pageSizes pg with
    | some sz => d.out ("/MediaBox [0 0 " ++ fmtFixed 2 sz.wd ++ " " ++
        fmtFixed 2 sz.ht ++ "]")
    | none => d
  let d := d.out "/Resources 2 0 R"
  let annStep : Option Doc :=
    if 0 < (d.pageLinks.getD pg []).length then
      match annotsLine d.links d.pageSizes hPt d.k (d.pageLinks.getD pg []) with
      | none => none
      | some a => some (d.out a)
    else some d
  match annStep with
  | none => none
  | some d =>
    let d := if strLt "1.3" d.pdfVersion then
        d.out "/Group <</Type /Group /S /Transparency /CS /DeviceRGB>>"
      else d
    let d := d.out ("/Contents " ++ natStr (d.n + 1) ++ " 0 R>>")
    let d := d.out "endobj"
    let d := d.newobj
    let content := render (d.pages.getD pg [])
    let d :=
      if d.compress then
        let data := zc content
        (d.out ("<</Filter /FlateDecode /Length " ++ natStr data.length ++ ">>")).putstream data
      else
        (d.out ("<</Length " ++ natStr content.length ++ ">>")).putstream content
    some (d.out "endobj")

/-- The per-page loop of `putpages` (`for n := 1; n <= nb; n++`),
structurally recursive on the number of remaining iterations: starting
at `p` with `count` iterations left it emits pages `p, p+1, ...,
p+count-1`. -/
def pagesLoop (zc : String → String) (hPt : ℚ) : ℕ → ℕ → Doc → Option Doc
  | 0, _, d => some d
  | count + 1, p, d =>
    match pageObjEmit zc hPt d p with
    | none => none
    | some d1 => pagesLoop zc hPt count (p + 1) d1

/-- `putpages`. -/
def putpages (zc : String → String) (d : Doc) : Option Doc :=
  let nb := d.page
  let d := aliasApply d
  let wPt := if d.defOrientation = "P" then d.defPageSize.wd * d.k else d.defPageSize.ht * d.k
  let hPt := if d.defOrientation = "P" then d.defPageSize.ht * d.k else d.defPageSize.wd * d.k
  match pagesLoop zc hPt nb 1 d with
  | none => none
  | some d =>
    match goSet d.offsets 1 (bufLen d.buffer) with
    | none => none
    | some offs =>
      let d := { d with offsets := offs }
      let d := d.out "1 0 obj"
      let d := d.out "<</Type /Pages"
      let d := d.out ("/Kids [" ++
        String.join ((List.range nb).map (fun i => natStr (3 + 2 * i) ++ " 0 R ")) ++ "]")
      let d := d.out ("/Count " ++ natStr nb)
      let d := d.out ("/MediaBox [0 0 " ++ fmtFixed 2 wPt ++ " " ++ fmtFixed 2 hPt ++ "]")
      let d := d.out ">>"
      some (d.out "endobj")

/-- The encoding objects `putfonts` emits, one per interned difference
table. -/
def putdiffs (d : Doc) : Doc :=
  d.diffs.foldl (fun dd diff =>
    ((dd.newobj.out ("<</Type /Encoding /BaseEncoding /WinAnsiEncoding /Differences [" ++
      diff ++ "]>>")).out "endobj")) d

/-- The font-file embedding loop of `putfonts`.  The font file bytes are
read from the `fontFileDir` table (file I/O); a missing file sets the
error latch and stops, as in the source. -/
def putfontFiles : List (String × FontFileType) → Doc → Option Doc
  | [], d => some d
  | (file, info) :: rest, d =>
    let d := d.newobj
    let info := { info with n := d.n }
    let d := { d with fontFiles := assocSet d.fontFiles file info }
    match assocGet d.fontFileDir (pathJoin d.fontpath file) with
    | none => some { d with err := some ("open " ++ pathJoin d.fontpath file ++
        ": no such file or directory") }
    | some font =>
      match goSubstr file ((file.length : ℤ) - 2) (file.length : ℤ) with
      | none => none
      | some suffix =>
        let compressed := suffix = ".z"
        let fontStep : Option String :=
          if ¬compressed ∧ (0 : ℤ) < info.length2 then
            match goSubstr font 6 info.length1,
                  goSubstr font (6 + info.length1 + 6) info.length2 with
            | some a, some b => some (a ++ b)
            | _, _ => none
          else some font
        match fontStep with
        | none => none
        | some font =>
          let d := d.out ("<</Length " ++ natStr font.length)
          let d := if compressed then d.out "/Filter /FlateDecode" else d
          let d := d.out ("/Length1 " ++ intStr info.length1)
          let d := if (0 : ℤ) < info.length2 then
              d.out ("/Length2 " ++ intStr info.length2 ++ " /Length3 0")
            else d
          let d := d.out ">>"
          let d := d.putstream font
          let d := d.out "endobj"
          putfontFiles rest d

/-- The widths array line for an embedded font. -/
def widthsLine (cw : List ℤ) : String :=
  "[" ++ String.join ((List.range' 32 224).map (fun j => intStr (cw.getD j 0) ++ " ")) ++ "]"

/-- The descriptor line for an embedded font. -/
def descriptorLine (font : FontDefType) (fileN : ℕ) : String :=
  "<</Type /FontDescriptor /FontName /" ++ font.Name ++ " " ++
  "/Ascent " ++ intStr font.Desc.Ascent ++ " " ++
  "/Descent " ++ intStr font.Desc.Descent ++ " " ++
  "/CapHeight " ++ intStr font.Desc.CapHeight ++ " " ++
  "/Flags " ++ intStr font.Desc.Flags ++ " " ++
  "/FontBBox [" ++ intStr font.Desc.FontBBox.Xmin ++ " " ++ intStr font.Desc.FontBBox.Ymin ++
    " " ++ intStr font.Desc.FontBBox.Xmax ++ " " ++ intStr font.Desc.FontBBox.Ymax ++ "] " ++
  "/ItalicAngle " ++ intStr font.Desc.ItalicAngle ++ " " ++
  "/StemV " ++ intStr font.Desc.StemV ++ " " ++
  "/MissingWidth " ++ intStr font.Desc.MissingWidth ++ " " ++
  "/FontFile" ++ (if font.Tp ≠ "Type1" then "2" else "") ++ " " ++ natStr fileN ++ " 0 R>>"

/-- The font-object loop of `putfonts`.  `nf` is the object number taken
before the encoding objects (used for `/Encoding nf+DiffN 0 R`). -/
def putfontsLoop (nf : ℕ) : List (String × FontDefType) → Doc → Doc
  | [], d => d
  | (key, font) :: rest, d =>
    let font := { font with N := d.n + 1 }
    let d := { d with fonts := assocSet d.fonts key font }
    if font.Tp = "Core" then
      let d := d.newobj
      let d := d.out "<</Type /Font"
      let d := d.out ("/BaseFont /" ++ font.Name)
      let d := d.out "/Subtype /Type1"
      let d := if font.Name ≠ "Symbol" ∧ font.Name ≠ "ZapfDingbats" then
          d.out "/Encoding /WinAnsiEncoding"
        else d
      let d := (d.out ">>").out "endobj"
      putfontsLoop nf rest d
    else if font.Tp = "Type1" ∨ font.Tp = "TrueType" then
      let d := d.newobj
      let d := d.out "<</Type /Font"
      let d := d.out ("/BaseFont /" ++ font.Name)
      let d := d.out ("/Subtype /" ++ font.Tp)
      let d := d.out "/FirstChar 32 /LastChar 255"
      let d := d.out ("/Widths " ++ natStr (d.n + 1) ++ " 0 R")
      let d := d.out ("/FontDescriptor " ++ natStr (d.n + 2) ++ " 0 R")
      let d := if 0 < font.DiffN then d.out ("/Encoding " ++ natStr (nf + font.DiffN) ++ " 0 R")
        else d.out "/Encoding /WinAnsiEncoding"
      let d := (d.out ">>").out "endobj"
      let d := ((d.newobj.out (widthsLine font.Cw)).out "endobj")
      let d := d.newobj
      let fileN := ((assocGet d.fontFiles font.File).map (·.n)).getD 0
      let d := (d.out (descriptorLine font fileN)).out "endobj"
      putfontsLoop nf rest d
    else
      { d with err := some ("Unsupported font type: " ++ font.Tp) }

/-- `putfonts`. -/
def Doc.putfonts (d : Doc) : Option Doc :=
  if d.err.isSome then some d
  else
    let nf := d.n
    let d := putdiffs d
    match putfontFiles d.fontFiles d with
    | none => none
    | some d =>
      if d.err.isSome then some d
      else some (putfontsLoop nf d.fonts d)

/-- The main `<</Type /XObject ... endobj` emission of `putimage`. -/
def putimageMain (d : Doc) (info : ImageInfoType) : Doc × ImageInfoType :=
  let d := d.newobj
  let info := { info with n := d.n }
  let d := d.out "<</Type /XObject"
  let d := d.out "/Subtype /Image"
  let d := d.out ("/Width " ++ intStr (ratTrunc info.w))
  let d := d.out ("/Height " ++ intStr (ratTrunc info.h))
  let d :=
    if info.cs = "Indexed" then
      d.out ("/ColorSpace [/Indexed /DeviceRGB " ++ natStr (info.pal.length / 3 - 1) ++
        " " ++ natStr (d.n + 1) ++ " 0 R]")
    else
      let d := d.out ("/ColorSpace /" ++ info.cs)
      if info.cs = "DeviceCMYK" then d.out "/Decode [1 0 1 0 1 0 1 0]" else d
  let d := d.out ("/BitsPerComponent " ++ natStr info.bpc)
  let d := if 0 < info.f.length then d.out ("/Filter /" ++ info.f) else d
  let d := if 0 < info.dp.length then d.out ("/DecodeParms <<" ++ info.dp ++ ">>") else d
  let d := if 0 < info.trns.length then
      d.out ("/Mask [" ++
        String.join (info.trns.map (fun v => natStr v ++ " " ++ natStr v ++ " ")) ++ "]")
    else d
  let d := if info.smask.isSome then d.out ("/SMask " ++ natStr (d.n + 1) ++ " 0 R") else d
  let d := d.out ("/Length " ++ natStr info.data.length ++ ">>")
  let d := d.putstream info.data
  (d.out "endobj", info)

/-- The trailing palette emission of `putimage` (indexed images). -/
def putimagePalette (zc : String → String) (d : Doc) (info : ImageInfoType) : Doc :=
  if info.cs = "Indexed" then
    let d := d.newobj
    let d :=
      if d.compress then
        let pal := zc info.pal
        (d.out ("<</Filter /FlateDecode /Length " ++ natStr pal.length ++ ">>")).putstream pal
      else
        (d.out ("<</Length " ++ natStr info.pal.length ++ ">>")).putstream info.pal
    d.out "endobj"
  else d

/-- `putimage`: the main emission, then the recursive call on the
constructed soft-mask image, then the palette.  The recursion is
unfolded once: the constructed soft-mask image has no soft mask of its
own and a non-indexed color space, so its inner soft-mask and palette
branches are the two no-op calls written below. -/
def putimage (zc : String → String) (d : Doc) (info : ImageInfoType) : Doc × ImageInfoType :=
  let r := putimageMain d info
  let d := r.1
  let info := r.2
  let d :=
    if 0 < ((info.smask.getD "").length) then
      let smaskInfo : ImageInfoType :=
        { data := info.smask.getD "", smask := none, i := 0, n := 0,
          w := info.w, h := info.h, cs := "DeviceGray", pal := "", bpc := 8,
          f := info.f,
          dp := "/Predictor 15 /Colors 1 /BitsPerComponent 8 /Columns " ++
            intStr (ratTrunc info.w),
          trns := [] }
      let r2 := putimageMain d smaskInfo
      putimagePalette zc r2.1 r2.2
    else d
  (putimagePalette zc d info, info)

/-- `putimages`: emit every registered image, then truncate the stored
payloads in the table (`data[0:0]`, `smask[0:0]`; a nil smask stays
nil). -/
def putimagesLoop (zc : String → String) : List (String × ImageInfoType) → Doc → Doc
  | [], d => d
  | (file, img) :: rest, d =>
    let r := putimage zc d img
    let img2 := { r.2 with data := "", smask := r.2.smask.map (fun _ => "") }
    let d2 := { r.1 with images := assocSet r.1.images file img2 }
    putimagesLoop zc rest d2

/-- `putxobjectdict`. -/
def putxobjectdict (d : Doc) : Doc :=
  d.images.foldl (fun dd fi =>
    dd.out ("/I" ++ natStr fi.2.i ++ " " ++ natStr fi.2.n ++ " 0 R")) d

/-- `putresourcedict`. -/
def putresourcedict (d : Doc) : Doc :=
  let d := d.out "/ProcSet [/PDF /Text /ImageB /ImageC /ImageI]"
  let d := d.out "/Font <<"
  let d := d.fonts.foldl (fun dd kf =>
    dd.out ("/F" ++ natStr kf.2.I ++ " " ++ natStr kf.2.N ++ " 0 R")) d
  let d := d.out ">>"
  let d := d.out "/XObject <<"
  let d := putxobjectdict d
  d.out ">>"

/-- `putresources`. -/
def putresources (zc : String → String) (d : Doc) : Option Doc :=
  if d.err.isSome then some d
  else
    match d.putfonts with
    | none => none
    | some d =>
      if d.err.isSome then some d
      else
        let d := putimagesLoop zc d.images d
        match goSet d.offsets 2 (bufLen d.buffer) with
        | none => none
        | some offs =>
          let d := { d with offsets := offs }
          let d := d.out "2 0 obj"
          let d := d.out "<<"
          let d := putresourcedict d
          let d := d.out ">>"
          some (d.out "endobj")

/-- `putinfo` (`now` is the clock value `time.Now()` would format). -/
def putinfo (now : String) (d : Doc) : Doc :=
  let d := d.out ("/Producer " ++ textstring ("FPDF " ++ FPDF_VERSION))
  let d := if 0 < d.title.length then d.out ("/Title " ++ textstring d.title) else d
  let d := if 0 < d.subject.length then d.out ("/Subject " ++ textstring d.subject) else d
  let d := if 0 < d.author.length then d.out ("/Author " ++ textstring d.author) else d
  let d := if 0 < d.keywords.length then d.out ("/Keywords " ++ textstring d.keywords) else d
  let d := if 0 < d.creator.length then d.out ("/Creator " ++ textstring d.creator) else d
  d.out ("/CreationDate " ++ textstring ("D:" ++ now))

/-- `putcatalog`. -/
def putcatalog (d : Doc) : Doc :=
  let d := d.out "/Type /Catalog"
  let d := d.out "/Pages 1 0 R"
  let d :=
    if d.zoomMode = "fullpage" then d.out "/OpenAction [3 0 R /Fit]"
    else if d.zoomMode = "fullwidth" then d.out "/OpenAction [3 0 R /FitH null]"
    else if d.zoomMode = "real" then d.out "/OpenAction [3 0 R /XYZ null null 1]"
    else d
  if d.layoutMode = "single" then d.out "/PageLayout /SinglePage"
  else if d.layoutMode = "continuous" then d.out "/PageLayout /OneColumn"
  else if d.layoutMode = "two" then d.out "/PageLayout /TwoColumnLeft"
  else d

/-- `putheader`. -/
def Doc.putheader (d : Doc) : Doc := d.out ("%PDF-" ++ d.pdfVersion)

/-- `puttrailer`. -/
def puttrailer (d : Doc) : Doc :=
  let d := d.out ("/Size " ++ natStr (d.n + 1))
  let d := d.out ("/Root " ++ natStr d.n ++ " 0 R")
  d.out ("/Info " ++ natStr (d.n - 1) ++ " 0 R")

/-- `enddoc`. -/
def enddoc (zc : String → String) (now : String) (d : Doc) : Option Doc :=
  if d.err.isSome then some d
  else
    let d := d.putheader
    match putpages zc d with
    | none => none
    | some d =>
      match putresources zc d with
      | none => none
      | some d =>
        if d.err.isSome then some d
        else
          let d := d.newobj
          let d := d.out "<<"
          let d := putinfo now d
          let d := d.out ">>"
          let d := d.out "endobj"
          let d := d.newobj
          let d := d.out "<<"
          let d := putcatalog d
          let d := d.out ">>"
          let d := d.out "endobj"
          let o := bufLen d.buffer
          let d0 := d
          let d := d.out "xref"
          let d := d.out ("0 " ++ natStr (d.n + 1))
          let d := d.out "0000000000 65535 f "
          let d := (List.range d0.n).foldl (fun acc j =>
            acc.out (pad10 (d0.offsets.getD (j + 1) 0) ++ " 00000 n ")) d
          let d := d.out "trailer"
          let d := d.out "<<"
          let d := puttrailer d
          let d := d.out ">>"
          let d := d.out "startxref"
          let d := d.out (natStr o)
          let d := d.out "%%EOF"
          some { d with state := 3 }

/-- `Close`.  No footer callback is registered in the modelled class of
documents, so the footer invocation is absent. -/
def close (zc : String → String) (now : String) (d : Doc) : Option Doc :=
  if d.err.isSome then some d
  else if d.state = 3 then some d
  else
    let pageStep : Option Doc :=
      if d.page = 0 then d.addPage else some d
    match pageStep with
    | none => none
    | some d1 =>
      if d.page = 0 ∧ d1.err.isSome then some d1
      else enddoc zc now d1.endpage

/-- `Output`: returns the document after the call and the bytes written
to the sink.  If the latch is set, nothing is written.  Otherwise the
document is closed when necessary and the buffer is written via
`bytes.Buffer.WriteTo`, which drains it. -/
def output (zc : String → String) (now : String) (d : Doc) : Option (Doc × String) :=
  if d.err.isSome then some (d, "")
  else
    match (if d.state < 3 then close zc now d else some d) with
    | none => none
    | some d1 => some ({ d1 with buffer := [] }, render d1.buffer)

/-! ## `New` -/

/-- The Go zero value of the `Fpdf` struct (what `new(Fpdf)` allocates;
an errored `New` returns it with only the fields assigned before the
failing switch). -/
def zeroDoc : Doc where
  page := 0
  n := 0
  offsets := []
  buffer := []
  pages := []
  state := 0
  fonts := []
  fontFiles := []
  diffs := []
  images := []
  pageLinks := []
  links := []
  pageSizes := []
  inHeader := false
  inFooter := false
  lasth := 0
  fontFamily := ""
  fontStyle := ""
  fontSizePt := 0
  fontSize := 0
  underline := false
  drawColor := ""
  fillColor := ""
  textColor := ""
  colorFlag := false
  ws := 0
  fontpath := ""
  fontDir := []
  fontFileDir := []
  stdpageSizes := []
  defPageSize := { wd := 0, ht := 0 }
  curPageSize := { wd := 0, ht := 0 }
  defOrientation := ""
  curOrientation := ""
  k := 0
  w := 0
  h := 0
  wPt := 0
  hPt := 0
  lMargin := 0
  tMargin := 0
  rMargin := 0
  bMargin := 0
  cMargin := 0
  lineWidth := 0
  capStyle := 0
  autoPageBreak := false
  pageBreakTrigger := 0
  zoomMode := ""
  layoutMode := ""
  compress := false
  pdfVersion := ""
  aliasNbPagesStr := ""
  x := 0
  y := 0
  title := ""
  subject := ""
  author := ""
  keywords := ""
  creator := ""
  currentFont := emptyFontDef
  err := none

/-- `SetMargins`. -/
def Doc.setMargins (d : Doc) (left top right : ℚ) : Doc :=
  { d with lMargin := left, tMargin := top,
           rMargin := if right < 0 then left else right }

/-- `SetAutoPageBreak`. -/
def Doc.setAutoPageBreak (d : Doc) (auto : Bool) (margin : ℚ) : Doc :=
  { d with autoPageBreak := auto, bMargin := margin, pageBreakTrigger := d.h - margin }

/-- `SetDisplayMode`. -/
def Doc.setDisplayMode (d : Doc) (zoomStr layoutStr : String) : Doc :=
  if d.err.isSome then d
  else
    let layoutStr := if layoutStr = "" then "default" else layoutStr
    if zoomStr = "fullpage" ∨ zoomStr = "fullwidth" ∨ zoomStr = "real" ∨
        zoomStr = "default" then
      let d := { d with zoomMode := zoomStr }
      if layoutStr = "single" ∨ layoutStr = "continuous" ∨ layoutStr = "two" ∨
          layoutStr = "default" then
        { d with layoutMode := layoutStr }
      else { d with err := some ("Incorrect layout display mode: " ++ layoutStr) }
    else { d with err := some ("Incorrect zoom display mode: " ++ zoomStr) }

/-- `getpagesizestr`. -/
def Doc.getpagesizestr (d : Doc) (sizeStr : String) : Doc × SizeType :=
  if d.err.isSome then (d, { wd := 0, ht := 0 })
  else
    let sizeStr := strToLower sizeStr
    if sizeStr = "" then (d, d.defPageSize)
    else
      match assocGet d.stdpageSizes sizeStr with
      | some size => (d, { wd := size.wd / d.k, ht := size.ht / d.k })
      | none => ({ d with err := some ("Unknown page size " ++ sizeStr) },
                 { wd := 0, ht := 0 })

/-- `New`.  `fontDir`/`fontFileDir` carry the filesystem contents the
document may later read (file I/O is outside the embedding). -/
def newDoc (orientationStr unitStr sizeStr fontDirStr : String)
    (fontDir : List (String × FontDefType)) (fontFileDir : List (String × String)) : Doc :=
  let orientationStr := if orientationStr = "" then "P" else orientationStr
  let unitStr := if unitStr = "" then "mm" else unitStr
  let sizeStr := if sizeStr = "" then "A4" else sizeStr
  let fontDirStr := if fontDirStr = "" then "." else fontDirStr
  let d := { zeroDoc with
    page := 0, n := 2, pages := [[]], state := 0,
    fonts := [], fontFiles := [], diffs := [], images := [],
    pageLinks := [[]], links := [{ page := 0, y := 0 }],
    inHeader := false, inFooter := false, lasth := 0,
    fontFamily := "", fontStyle := "", fontSizePt := 12, underline := false,
    drawColor := "0 G", fillColor := "0 g", textColor := "0 g", colorFlag := false,
    ws := 0, fontpath := fontDirStr, fontDir := fontDir, fontFileDir := fontFileDir }
  let kOpt : Option ℚ :=
    if unitStr = "pt" ∨ unitStr = "point" then some 1
    else if unitStr = "mm" then some (72 / (254 / 10))
    else if unitStr = "cm" then some (72 / (254 / 100))
    else if unitStr = "in" ∨ unitStr = "inch" then some 72
    else none
  match kOpt with
  | none => { d with err := some ("Incorrect unit " ++ unitStr) }
  | some k =>
    let d := { d with k := k }
    let d := { d with stdpageSizes :=
      [("a3", { wd := 84189/100, ht := 119055/100 }),
       ("a4", { wd := 59528/100, ht := 84189/100 }),
       ("a5", { wd := 42094/100, ht := 59528/100 }),
       ("letter", { wd := 612, ht := 792 }),
       ("legal", { wd := 612, ht := 1008 })] }
    let (d, defSize) := d.getpagesizestr sizeStr
    let d := { d with defPageSize := defSize }
    if d.err.isSome then d
    else
      let d := { d with curPageSize := d.defPageSize }
      let orientationStr := strToLower orientationStr
      let dOpt : Option Doc :=
        if orientationStr = "p" ∨ orientationStr = "portrait" then
          some { d with defOrientation := "P", w := d.defPageSize.wd, h := d.defPageSize.ht }
        else if orientationStr = "l" ∨ orientationStr = "landscape" then
          some { d with defOrientation := "L", w := d.defPageSize.ht, h := d.defPageSize.wd }
        else none
      match dOpt with
      | none => { d with err := some ("Incorrect orientation: " ++ orientationStr) }
      | some d =>
        let d := { d with curOrientation := d.defOrientation,
                          wPt := d.w * d.k, hPt := d.h * d.k }
        let margin := (2835 / 100 : ℚ) / d.k
        let d := d.setMargins margin margin margin
        let d := { d with cMargin := margin / 10 }
        let d := { d with lineWidth := (567 / 1000 : ℚ) / d.k }
        let d := d.setAutoPageBreak true (2 * margin)
        let d := d.setDisplayMode "default" "default"
        if d.err.isSome then d
        else
          let d := { d with compress := true }
          { d with pdfVersion := "1.3" }

/-! ## The bounded multi-line layout scan (`MultiCell`, lines 1208-1327)

The loop of `MultiCell` is embedded as a pure scan over the text bytes.
The loop's document side effects (the conditional `0 Tw` reset, the
`%.3f Tw` word-spacing operator, and the `CellFormat` call of each
emitted line) are represented as an event list; `Doc.multiCell` below
folds the events back into the document exactly as the loop body does,
so the scan is the loop with its state threading made explicit. -/

/-- `s[a:b]` on text bytes. -/
def subList (s : List ℕ) (a b : ℕ) : List ℕ := (s.drop a).take (b - a)

/-- Width (in thousandths of font size) of `s[a:b]` under width table
`cw`: the sum the loop accumulates in `l`. -/
def widthW (cw : List ℤ) (s : List ℕ) (a b : ℕ) : ℚ :=
  ((((subList s a b).map (fun c => cw.getD c 0)).sum : ℤ) : ℚ)

/-- Number of space bytes in `s[a:b]`: what the loop counts in `ns`. -/
def blanks (s : List ℕ) (a b : ℕ) : ℕ :=
  ((subList s a b).filter (· = 32)).length

/-- The justification word-spacing computed at a soft break (`MultiCell`
lines 1294-1299): `(wmax - ls) / 1000 * fontSize / (ns - 1)` when
`ns > 1`, else zero. -/
def justWs (wmax ls fontSize : ℚ) (ns : ℕ) : ℚ :=
  if 1 < ns then (wmax - ls) / 1000 * fontSize / ((ns : ℚ) - 1) else 0

/-- The loop-invariant inputs of the `MultiCell` scan. -/
structure MCParams where
  s : List ℕ
  cw : List ℤ
  wmax : ℚ
  fontSize : ℚ
  align : String
  hasBorder : Bool
  b2 : String

/-- The mutable scan state (`sep`, `i`, `j`, `l`, `ls`, `ns`, `nl`, and
the current border-side string `b`).  `sep = none` embeds `sep == -1`. -/
structure MCState where
  i : ℕ
  j : ℕ
  sep : Option ℕ
  l : ℚ
  ls : ℚ
  ns : ℕ
  nl : ℕ
  b : String
deriving DecidableEq

/-- A document side effect of the scan: an emitted line.  `cellReset` is
an explicit `\n` or a hard break (conditional word-spacing reset, then
`CellFormat`); `cellSoftJ` is a justified soft break (set `ws`, emit the
`Tw` operator, then `CellFormat`); `cellSoft` is a non-justified soft
break (`CellFormat` only). -/
inductive MCEvent where
  | cellReset (chunk : List ℕ) (b : String)
  | cellSoftJ (ws : ℚ) (chunk : List ℕ) (b : String)
  | cellSoft (chunk : List ℕ) (b : String)
deriving DecidableEq

/-- One-line helper: the border string for the next line (`b = b2` once
`nl` reaches 2 when a border was requested). -/
def nextB (P : MCParams) (nl : ℕ) (b : String) : String :=
  if P.hasBorder ∧ nl = 2 then P.b2 else b

/-- The state after a line break at index `idx`: `sep = -1; j = i; l = 0;
ns = 0`, with `ls` retained and the border string advanced. -/
def mcBreakState (idx : ℕ) (ls : ℚ) (nl : ℕ) (b : String) : MCState :=
  { i := idx, j := idx, sep := none, l := 0, ls := ls, ns := 0, nl := nl, b := b }

/-- The scan loop (`for i < nb`), fuelled; `none` is fuel exhaustion
(Claim C5 proves the fuel used by `multiCellScan` never runs out). -/
def mcScan (P : MCParams) : ℕ → MCState → Option (List MCEvent × MCState)
  | 0, _ => none
  | fuel + 1, st =>
    if st.i < P.s.length then
      let c := P.s.getD st.i 0
      if c = 10 then
        let ev := MCEvent.cellReset (subList P.s st.j st.i) st.b
        let nl := st.nl + 1
        let st' := mcBreakState (st.i + 1) st.ls nl (nextB P nl st.b)
        (mcScan P fuel st').map (fun r => (ev :: r.1, r.2))
      else
        let sep' := if c = 32 then some st.i else st.sep
        let ls' := if c = 32 then st.l else st.ls
        let ns' := if c = 32 then st.ns + 1 else st.ns
        let l' := st.l + ((P.cw.getD c 0 : ℤ) : ℚ)
        if l' > P.wmax then
          match sep' with
          | none =>
            let i' := if st.i = st.j then st.i + 1 else st.i
            let ev := MCEvent.cellReset (subList P.s st.j i') st.b
            let nl := st.nl + 1
            let st' := mcBreakState i' ls' nl (nextB P nl st.b)
            (mcScan P fuel st').map (fun r => (ev :: r.1, r.2))
          | some sp =>
            let ev := if P.align = "J" then
                MCEvent.cellSoftJ (justWs P.wmax ls' P.fontSize ns') (subList P.s st.j sp) st.b
              else MCEvent.cellSoft (subList P.s st.j sp) st.b
            let nl := st.nl + 1
            let st' := mcBreakState (sp + 1) ls' nl (nextB P nl st.b)
            (mcScan P fuel st').map (fun r => (ev :: r.1, r.2))
        else
          mcScan P fuel { st with i := st.i + 1, sep := sep', ls := ls', ns := ns', l := l' }
    else some ([], st)

/-- The initial scan state. -/
def mcInit (b : String) : MCState :=
  { i := 0, j := 0, sep := none, l := 0, ls := 0, ns := 0, nl := 1, b := b }

/-- The whole scan with the fuel Claim C5 shows sufficient. -/
def multiCellScan (P : MCParams) (b : String) : Option (List MCEvent × MCState) :=
  mcScan P ((P.s.length + 1) * (P.s.length + 2)) (mcInit b)

/-- `MultiCell`. -/
def Doc.multiCell (d : Doc) (w h : ℚ) (txt : List ℕ) (borderStr alignStr : String)
    (fill : Bool) : Option Doc :=
  let alignStr := if alignStr = "" then "J" else alignStr
  let cw := d.currentFont.Cw
  let w := if w = 0 then d.w - d.rMargin - d.x else w
  let wmax := (w - 2 * d.cMargin) * 1000 / d.fontSize
  let s := txt.filter (· ≠ 13)
  let s := if 0 < s.length ∧ s.getLast? = some 10 then s.dropLast else s
  let borderFull := if borderStr = "1" then "LTRB" else borderStr
  let bPair : String × String :=
    if 0 < borderStr.length then
      if borderStr = "1" then ("LRT", "LR")
      else
        let b2 := (if strContainsChar borderStr 'L' then "L" else "") ++
          (if strContainsChar borderStr 'R' then "R" else "")
        ((if strContainsChar borderStr 'T' then b2 ++ "T" else b2), b2)
    else ("0", "")
  let P : MCParams := { s := s, cw := cw, wmax := wmax, fontSize := d.fontSize,
                        align := alignStr, hasBorder := 0 < borderStr.length, b2 := bPair.2 }
  match multiCellScan P bPair.1 with
  | none => none
  | some (events, fin) =>
    let step : Doc → MCEvent → Option Doc := fun d ev =>
      match ev with
      | .cellReset chunk bb =>
        let d := if 0 < d.ws then Doc.out { d with ws := 0 } "0 Tw" else d
        d.cellFormat w h chunk bb 2 alignStr fill 0 ""
      | .cellSoftJ ws chunk bb =>
        let d := Doc.out { d with ws := ws } (fmtFixed 3 (ws * d.k) ++ " Tw")
        d.cellFormat w h chunk bb 2 alignStr fill 0 ""
      | .cellSoft chunk bb => d.cellFormat w h chunk bb 2 alignStr fill 0 ""
    match events.foldlM step d with
    | none => none
    | some d =>
      let d := if 0 < d.ws then Doc.out { d with ws := 0 } "0 Tw" else d
      let bfin := if 0 < borderStr.length ∧ strContainsChar borderFull 'B' then fin.b ++ "B"
        else fin.b
      match d.cellFormat w h (subList P.s fin.j fin.i) bfin 2 alignStr fill 0 "" with
      | none => none
      | some d => some { d with x := d.lMargin }

/-! ## PNG alpha de-interleaving (`parsepngstream`, lines 1926-1977)

The color-type 4 (gray+alpha) and 6 (RGB+alpha) row loops, translated
literally with absolute byte positions, plus a generic form (`cpp` color
bytes per pixel) and the per-pixel recomposition the claim asserts. -/

/-- Color stream of a gray+alpha image (ct = 4): per row, the filter
byte, then one gray byte per pixel. -/
def splitColorGray (data : List ℕ) (w h : ℕ) : List ℕ :=
  (List.range h).flatMap (fun i =>
    data.getD ((1 + 2 * w) * i) 0 ::
      (List.range w).map (fun k => data.getD ((1 + 2 * w) * i + 1 + 2 * k) 0))

/-- Alpha stream of a gray+alpha image (ct = 4). -/
def splitAlphaGray (data : List ℕ) (w h : ℕ) : List ℕ :=
  (List.range h).flatMap (fun i =>
    data.getD ((1 + 2 * w) * i) 0 ::
      (List.range w).map (fun k => data.getD ((1 + 2 * w) * i + 1 + 2 * k + 1) 0))

/-- Color stream of an RGB+alpha image (ct = 6): per row, the filter
byte, then three color bytes per pixel. -/
def splitColorRGB (data : List ℕ) (w h : ℕ) : List ℕ :=
  (List.range h).flatMap (fun i =>
    data.getD ((1 + 4 * w) * i) 0 ::
      (List.range w).flatMap (fun k =>
        [data.getD ((1 + 4 * w) * i + 1 + 4 * k) 0,
         data.getD ((1 + 4 * w) * i + 1 + 4 * k + 1) 0,
         data.getD ((1 + 4 * w) * i + 1 + 4 * k + 2) 0]))

/-- Alpha stream of an RGB+alpha image (ct = 6). -/
def splitAlphaRGB (data : List ℕ) (w h : ℕ) : List ℕ :=
  (List.range h).flatMap (fun i =>
    data.getD ((1 + 4 * w) * i) 0 ::
      (List.range w).map (fun k => data.getD ((1 + 4 * w) * i + 1 + 4 * k + 3) 0))

/-- Generic color split: `cpp` color bytes per pixel (`cpp = 1` is the
ct-4 loop, `cpp = 3` the ct-6 loop). -/
def pngSplitColor (cpp : ℕ) (data : List ℕ) (w h : ℕ) : List ℕ :=
  (List.range h).flatMap (fun i =>
    data.getD ((1 + (cpp + 1) * w) * i) 0 ::
      (List.range w).flatMap (fun k =>
        (List.range cpp).map (fun m =>
          data.getD ((1 + (cpp + 1) * w) * i + 1 + (cpp + 1) * k + m) 0)))

/-- Generic alpha split. -/
def pngSplitAlpha (cpp : ℕ) (data : List ℕ) (w h : ℕ) : List ℕ :=
  (List.range h).flatMap (fun i =>
    data.getD ((1 + (cpp + 1) * w) * i) 0 ::
      (List.range w).map (fun k =>
        data.getD ((1 + (cpp + 1) * w) * i + 1 + (cpp + 1) * k + cpp) 0))

/-- Per-pixel recomposition of the two streams (the claim's inverse):
per row, the filter byte, then for each pixel its color bytes followed
by its alpha byte. -/
def pngMerge (cpp : ℕ) (color alpha : List ℕ) (w h : ℕ) : List ℕ :=
  (List.range h).flatMap (fun i =>
    color.getD ((1 + cpp * w) * i) 0 ::
      (List.range w).flatMap (fun k =>
        (List.range cpp).map (fun m => color.getD ((1 + cpp * w) * i + 1 + cpp * k + m) 0) ++
          [alpha.getD ((1 + w) * i + 1 + k) 0]))

/-! ## Concrete documents used by counterexamples and witnesses -/

/-- The identity compressor, a legitimate instance of the abstract
compressor parameter. -/
def zcId : String → String := fun s => s

/-- A fresh default document (`New("P","mm","A4",".")` with an empty
filesystem). -/
def docStd : Doc := newDoc "" "" "" "" [] []

/-- The fresh document with the error latch set. -/
def docLatched : Doc := { docStd with err := some "e" }

/-- The default document after `Close` (state `Closed`, one implicit
page, no error). -/
def docClosed : Doc := (close zcId "20260101120000" docStd).getD zeroDoc

theorem join_append (a b : List String) :
    String.join (a ++ b) = String.join a ++ String.join b := by
  apply String.ext
  simp [String.join_eq]

theorem render_append (a b : List String) :
    render (a ++ b) = render a ++ render b := by
  simp [render, join_append]

/-! ## Scan lemmas for Claims C4 and C5 -/

theorem subList_self (s : List ℕ) (a : ℕ) : subList s a a = [] := by
  simp [subList]

theorem subList_len (s : List ℕ) (a b : ℕ) (_hab : a ≤ b) (hb : b ≤ s.length) :
    (subList s a b).length = b - a := by
  simp [subList]
  omega

theorem subList_extend (s : List ℕ) (a b : ℕ) (hab : a ≤ b) (hb : b < s.length) :
    subList s a (b + 1) = subList s a b ++ [s.getD b 0] := by
  unfold subList
  have h1 : b + 1 - a = (b - a) + 1 := by omega
  rw [h1, List.take_succ]
  congr 1
  have h2 : (s.drop a)[b - a]? = s[b]? := by
    rw [List.getElem?_drop]
    congr 1
    omega
  rw [h2]
  have h3 : s[b]? = some (s.getD b 0) := by
    rw [List.getD_eq_getElem?_getD]
    cases h4 : s[b]? with
    | none => simp [List.getElem?_eq_none_iff] at h4; omega
    | some v => simp
  rw [h3]
  simp

theorem widthW_self (cw : List ℤ) (s : List ℕ) (a : ℕ) : widthW cw s a a = 0 := by
  simp [widthW, subList_self]

theorem widthW_extend (cw : List ℤ) (s : List ℕ) (a b : ℕ) (hab : a ≤ b)
    (hb : b < s.length) :
    widthW cw s a (b + 1) = widthW cw s a b + ((cw.getD (s.getD b 0) 0 : ℤ) : ℚ) := by
  unfold widthW
  rw [subList_extend s a b hab hb]
  push_cast [List.map_append, List.sum_append]
  simp

theorem blanks_self (s : List ℕ) (a : ℕ) : blanks s a a = 0 := by
  simp [blanks, subList_self]

theorem blanks_extend (s : List ℕ) (a b : ℕ) (hab : a ≤ b) (hb : b < s.length) :
    blanks s a (b + 1) = blanks s a b + (if s.getD b 0 = 32 then 1 else 0) := by
  unfold blanks
  rw [subList_extend s a b hab hb]
  rw [List.filter_append]
  simp only [List.length_append]
  split <;> simp_all

/-- Decidable check of the `sep` clause of the scan invariant. -/
def mcSepOkB (P : MCParams) (st : MCState) : Bool :=
  st.sep.all (fun sp => decide (st.j ≤ sp) && decide (sp < st.i) &&
    decide (st.ls = widthW P.cw P.s st.j sp))

/-- The scan invariant: `l` is the measured width and `ns` the blank
count of `s[j:i]`, and when a space has been seen since the last break,
`sep` lies in `[j, i)` and `ls` is the measured width of `s[j:sep]`
("the cumulative width up to the last space"). -/
@[reducible]
def MCInv (P : MCParams) (st : MCState) : Prop :=
  st.j ≤ st.i ∧
  st.l = widthW P.cw P.s st.j st.i ∧
  st.ns = blanks P.s st.j st.i ∧
  mcSepOkB P st = true

theorem mcSepOkB_spec {P : MCParams} {st : MCState} {sp : ℕ}
    (h : mcSepOkB P st = true) (hsep : st.sep = some sp) :
    st.j ≤ sp ∧ sp < st.i ∧ st.ls = widthW P.cw P.s st.j sp := by
  rw [mcSepOkB, hsep] at h
  simp at h
  exact ⟨h.1.1, h.1.2, h.2⟩

theorem mcSepOkB_none {P : MCParams} {st : MCState} (hsep : st.sep = none) :
    mcSepOkB P st = true := by
  rw [mcSepOkB, hsep]
  rfl

theorem mcInv_init (P : MCParams) (b : String) : MCInv P (mcInit b) := by
  refine ⟨le_refl 0, ?_, ?_, mcSepOkB_none rfl⟩
  · simp [mcInit, widthW_self]
  · simp [mcInit, blanks_self]

theorem mcInv_break (P : MCParams) (idx : ℕ) (ls : ℚ) (nl : ℕ) (b : String) :
    MCInv P (mcBreakState idx ls nl b) := by
  refine ⟨le_refl idx, ?_, ?_, mcSepOkB_none rfl⟩
  · simp [mcBreakState, widthW_self]
  · simp [mcBreakState, blanks_self]

/-- The loop measure: lexicographic `(nb - j, nb - i)` flattened. -/
def mcMeasure (nb i j : ℕ) : ℕ := (nb - j) * (nb + 1) + (nb - i) + 1

theorem mcMeasure_lt {nb i j i' j' : ℕ} (hjj : j < j') (hjnb : j < nb) :
    mcMeasure nb i' j' < mcMeasure nb i j := by
  unfold mcMeasure
  have h1 : nb - j' ≤ nb - j - 1 := by omega
  have h2 : (nb - j') * (nb + 1) ≤ (nb - j - 1) * (nb + 1) :=
    Nat.mul_le_mul_right _ h1
  have h3 : (nb - j - 1) * (nb + 1) + (nb + 1) = (nb - j) * (nb + 1) := by
    have h4 : nb - j - 1 + 1 = nb - j := by omega
    calc (nb - j - 1) * (nb + 1) + (nb + 1) = (nb - j - 1 + 1) * (nb + 1) := by ring
    _ = (nb - j) * (nb + 1) := by rw [h4]
  omega

theorem optIsSome_map {α β : Type} (f : α → β) (o : Option α) :
    (Option.map f o).isSome = o.isSome := by
  cases o <;> rfl

/-- Fuel sufficiency for the scan: from any invariant state, the scan
completes within its measure.  The hard-break branch's forced
`i++` when `i == j` is what makes the measure drop there. -/
theorem mcScan_isSome (P : MCParams) :
    ∀ fuel st, MCInv P st → mcMeasure P.s.length st.i st.j ≤ fuel →
      (mcScan P fuel st).isSome := by
  intro fuel
  induction fuel with
  | zero =>
    intro st _ hM
    unfold mcMeasure at hM
    omega
  | succ fuel ih =>
    intro st hInv hM
    have hnb : P.s.length = P.s.length := rfl
    rw [mcScan]
    by_cases hi : st.i < P.s.length
    · rw [if_pos hi]
      have hji : st.j ≤ st.i := hInv.1
      by_cases hc : P.s.getD st.i 0 = 10
      · rw [if_pos hc]
        simp only [optIsSome_map]
        apply ih _ (mcInv_break ..)
        have := @mcMeasure_lt P.s.length st.i st.j (st.i + 1) (st.i + 1)
          (by omega) (by omega)
        simp only [mcBreakState]
        omega
      · rw [if_neg hc]
        by_cases hover : st.l + ((P.cw.getD (P.s.getD st.i 0) 0 : ℤ) : ℚ) > P.wmax
        · rw [if_pos hover]
          rcases h32 : (if P.s.getD st.i 0 = 32 then some st.i else st.sep) with _ | sp
          · simp only [optIsSome_map]
            apply ih _ (mcInv_break ..)
            simp only [mcBreakState]
            by_cases hij : st.i = st.j
            · rw [if_pos hij]
              have := @mcMeasure_lt P.s.length st.i st.j (st.i + 1) (st.i + 1)
                (by omega) (by omega)
              omega
            · rw [if_neg hij]
              have := @mcMeasure_lt P.s.length st.i st.j st.i st.i
                (by omega) (by omega)
              omega
          · have hsple : st.j ≤ sp ∧ sp ≤ st.i := by
              by_cases hc32 : P.s.getD st.i 0 = 32
              · rw [if_pos hc32] at h32
                cases h32
                omega
              · rw [if_neg hc32] at h32
                have := mcSepOkB_spec hInv.2.2.2 h32
                exact ⟨this.1, le_of_lt this.2.1⟩
            simp only [optIsSome_map]
            apply ih _ (mcInv_break ..)
            simp only [mcBreakState]
            have := @mcMeasure_lt P.s.length st.i st.j (sp + 1) (sp + 1)
              (by omega) (by omega)
            omega
        · rw [if_neg hover]
          apply ih
          · refine ⟨by simp; omega, ?_, ?_, ?_⟩
            · simp only
              rw [widthW_extend P.cw P.s st.j st.i hji hi]
              rw [← hInv.2.1]
            · simp only
              rw [blanks_extend P.s st.j st.i hji hi]
              rw [← hInv.2.2.1]
              split <;> simp
            · by_cases hc32 : P.s.getD st.i 0 = 32
              · simp only [mcSepOkB, hc32, if_pos]
                simp [hInv.2.1]
                omega
              · simp only [mcSepOkB, hc32, if_neg, if_false]
                rcases hsep : st.sep with _ | sp
                · rfl
                · have := mcSepOkB_spec hInv.2.2.2 hsep
                  simp
                  exact ⟨⟨this.1, by omega⟩, this.2.2⟩
          · simp only [mcMeasure]
            unfold mcMeasure at hM
            omega
    · rw [if_neg hi]
      simp

/-! ## Claims C4 and C5 -/

/-- C4: in the bounded multi-line scan with alignment `"J"`, whenever an
overflow occurs with a space seen since the last break (a soft break at
the last seen space `sp`), the step emits the line `s[j:sp]` with the
word-spacing `justWs wmax ls fontSize ns` — that is,
`(wmax - ls) / 1000 * fontSize / (ns - 1)` when `ns > 1` and zero when
`ns ≤ 1` — where `ls` is the measured cumulative width of `s[j:sp]` (up
to the last space) and `ns` the number of blanks scanned since the last
break (those of `s[j:i+1]`). -/
theorem c4_theorem (P : MCParams) (st : MCState) (fuel : ℕ)
    (hInv : MCInv P st) (hJ : P.align = "J")
    (hi : st.i < P.s.length)
    (hc : P.s.getD st.i 0 ≠ 10)
    (hover : st.l + ((P.cw.getD (P.s.getD st.i 0) 0 : ℤ) : ℚ) > P.wmax)
    (sp : ℕ)
    (hsep : (if P.s.getD st.i 0 = 32 then some st.i else st.sep) = some sp) :
    mcScan P (fuel + 1) st =
      (mcScan P fuel (mcBreakState (sp + 1)
          (widthW P.cw P.s st.j sp) (st.nl + 1) (nextB P (st.nl + 1) st.b))).map
        (fun r => (MCEvent.cellSoftJ
          (justWs P.wmax (widthW P.cw P.s st.j sp) P.fontSize (blanks P.s st.j (st.i + 1)))
          (subList P.s st.j sp) st.b :: r.1, r.2)) := by
  have hji : st.j ≤ st.i := hInv.1
  have hls : (if P.s.getD st.i 0 = 32 then st.l else st.ls) = widthW P.cw P.s st.j sp := by
    by_cases hc32 : P.s.getD st.i 0 = 32
    · rw [if_pos hc32]
      rw [if_pos hc32] at hsep
      cases hsep
      exact hInv.2.1
    · rw [if_neg hc32]
      rw [if_neg hc32] at hsep
      exact (mcSepOkB_spec hInv.2.2.2 hsep).2.2
  have hns : (if P.s.getD st.i 0 = 32 then st.ns + 1 else st.ns) =
      blanks P.s st.j (st.i + 1) := by
    rw [blanks_extend P.s st.j st.i hji hi, ← hInv.2.2.1]
    by_cases hc32 : P.s.getD st.i 0 = 32
    · rw [if_pos hc32, if_pos hc32]
    · rw [if_neg hc32, if_neg hc32]
      simp
  rw [mcScan]
  rw [if_pos hi, if_neg hc]
  simp only [hsep, if_pos hover, hJ, if_pos rfl, hls, hns]
  simp

/-- C5: the bounded multi-line scan of `MultiCell` terminates for every
input text, width table, maximum line width, alignment and border
configuration: the fuelled loop with the fuel `multiCellScan` supplies
(`(|s|+1)(|s|+2)`) never exhausts it, because a hard break with no
space seen always forces at least one character through (`i++` when
`i == j`), so the pair `(j, i)` strictly progresses. -/
theorem c5_theorem (P : MCParams) (b : String) : (multiCellScan P b).isSome := by
  apply mcScan_isSome P _ _ (mcInv_init P b)
  show mcMeasure P.s.length (mcInit b).i (mcInit b).j ≤ (P.s.length + 1) * (P.s.length + 2)
  have h1 : mcMeasure P.s.length (mcInit b).i (mcInit b).j =
      P.s.length * (P.s.length + 1) + P.s.length + 1 := by
    simp [mcMeasure, mcInit]
  have h2 : P.s.length * (P.s.length + 1) + P.s.length + 1 =
      (P.s.length + 1) * (P.s.length + 1) := by ring
  have h3 : (P.s.length + 1) * (P.s.length + 1) ≤ (P.s.length + 1) * (P.s.length + 2) :=
    Nat.mul_le_mul_left _ (by omega)
  omega

/-- Witness scan parameters: text `"a b cd"`, all widths 100, maximum
line width 350, justified. -/
def c4P : MCParams :=
  { s := [97, 32, 98, 32, 99, 100], cw := List.replicate 256 100, wmax := 350,
    fontSize := 12, align := "J", hasBorder := false, b2 := "" }

/-- The scan state reached just before the soft break of `c4P` (scanning
the second space overflows). -/
def c4St : MCState :=
  { i := 3, j := 0, sep := some 1, l := 300, ls := 100, ns := 1, nl := 1, b := "0" }

/-- Witness for C4 at the concrete soft-break state. -/
theorem c4_theorem_witness :
    mcScan c4P (5 + 1) c4St =
      (mcScan c4P 5 (mcBreakState (3 + 1)
          (widthW c4P.cw c4P.s c4St.j 3) (c4St.nl + 1) (nextB c4P (c4St.nl + 1) c4St.b))).map
        (fun r => (MCEvent.cellSoftJ
          (justWs c4P.wmax (widthW c4P.cw c4P.s c4St.j 3) c4P.fontSize
            (blanks c4P.s c4St.j (c4St.i + 1)))
          (subList c4P.s c4St.j 3) c4St.b :: r.1, r.2)) :=
  c4_theorem c4P c4St 5 (by decide) rfl (by decide) (by decide) (by decide) 3 (by decide)

/-! ## Row/stream lemmas for Claim C6 -/

theorem getD_map_range {α : Type} (f : ℕ → α) (d : α) {m n : ℕ} (h : m < n) :
    ((List.range n).map f).getD m d = f m := by
  rw [List.getD_eq_getElem?_getD]
  simp [List.getElem?_map, List.getElem?_range h]

theorem flatMap_map_succ {α : Type} (l : List ℕ) (rows : ℕ → List α) :
    (l.map Nat.succ).flatMap rows = l.flatMap (fun x => rows (x + 1)) := by
  induction l with
  | nil => rfl
  | cons a t ih => simp [List.flatMap_cons, ih]

theorem flatMap_range_length {α : Type} (R : ℕ) (rows : ℕ → List α)
    (hlen : ∀ i, (rows i).length = R) :
    ∀ h : ℕ, ((List.range h).flatMap rows).length = h * R := by
  intro h
  induction h with
  | zero => simp
  | succ h ih =>
    rw [List.range_succ, List.flatMap_append]
    simp only [List.length_append, ih, List.flatMap_cons, List.flatMap_nil,
      List.append_nil, hlen h]
    ring

theorem flatMap_range_getD {α : Type} (R : ℕ) (d : α) :
    ∀ (i h : ℕ) (rows : ℕ → List α), (∀ n, (rows n).length = R) → i < h →
      ∀ t, t < R →
      ((List.range h).flatMap rows).getD (R * i + t) d = (rows i).getD t d := by
  intro i
  induction i with
  | zero =>
    intro h rows hlen hih t ht
    obtain ⟨h', rfl⟩ : ∃ h', h = h' + 1 := ⟨h - 1, by omega⟩
    rw [List.range_succ_eq_map, List.flatMap_cons]
    have hpos : R * 0 + t = t := by ring
    rw [hpos]
    rw [List.getD_append]
    rw [hlen 0]
    omega
  | succ i ih =>
    intro h rows hlen hih t ht
    obtain ⟨h', rfl⟩ : ∃ h', h = h' + 1 := ⟨h - 1, by omega⟩
    rw [List.range_succ_eq_map, List.flatMap_cons]
    rw [List.getD_append_right]
    · rw [hlen 0]
      have hsub : R * (i + 1) + t - R = R * i + t := by
        have : R * (i + 1) = R * i + R := by ring
        omega
      rw [hsub, flatMap_map_succ]
      exact ih h' (fun n => rows (n + 1)) (fun n => hlen (n + 1)) (by omega) t ht
    · rw [hlen 0]
      have : R * (i + 1) = R * i + R := by ring
      omega

theorem list_eq_range_map {α : Type} (l : List α) (d : α) :
    (List.range l.length).map (fun i => l.getD i d) = l := by
  apply List.ext_getElem
  · simp
  · intro n h1 h2
    simp only [List.getElem_map, List.getElem_range]
    rw [List.getD_eq_getElem l d h2]

theorem range_mul_map {α : Type} (R : ℕ) (g : ℕ → α) :
    ∀ h : ℕ, (List.range (h * R)).map g =
      (List.range h).flatMap (fun i => (List.range R).map (fun r => g (R * i + r))) := by
  intro h
  induction h with
  | zero => simp
  | succ h ih =>
    have hmul : (h + 1) * R = h * R + R := by ring
    rw [hmul, List.range_add, List.map_append, ih, List.range_succ, List.flatMap_append]
    simp only [List.flatMap_cons, List.flatMap_nil, List.append_nil, List.map_map]
    congr 1
    apply List.map_congr_left
    intro r _
    show g (h * R + r) = g (R * h + r)
    apply congrArg
    ring

theorem flatMap_range_congr {α : Type} (f g : ℕ → List α) (h : ℕ)
    (hfg : ∀ i, i < h → f i = g i) :
    (List.range h).flatMap f = (List.range h).flatMap g := by
  induction h with
  | zero => rfl
  | succ h ih =>
    rw [List.range_succ, List.flatMap_append, List.flatMap_append]
    rw [ih (fun i hi => hfg i (by omega))]
    simp [hfg h (by omega)]

/-- One color-stream row of the generic split. -/
def pngColorRow (cpp : ℕ) (data : List ℕ) (w : ℕ) (i : ℕ) : List ℕ :=
  data.getD ((1 + (cpp + 1) * w) * i) 0 ::
    (List.range w).flatMap (fun k =>
      (List.range cpp).map (fun m =>
        data.getD ((1 + (cpp + 1) * w) * i + 1 + (cpp + 1) * k + m) 0))

/-- One alpha-stream row of the generic split. -/
def pngAlphaRow (cpp : ℕ) (data : List ℕ) (w : ℕ) (i : ℕ) : List ℕ :=
  data.getD ((1 + (cpp + 1) * w) * i) 0 ::
    (List.range w).map (fun k =>
      data.getD ((1 + (cpp + 1) * w) * i + 1 + (cpp + 1) * k + cpp) 0)

theorem pngSplitColor_eq_rows (cpp : ℕ) (data : List ℕ) (w h : ℕ) :
    pngSplitColor cpp data w h = (List.range h).flatMap (pngColorRow cpp data w) := rfl

theorem pngSplitAlpha_eq_rows (cpp : ℕ) (data : List ℕ) (w h : ℕ) :
    pngSplitAlpha cpp data w h = (List.range h).flatMap (pngAlphaRow cpp data w) := rfl

theorem pngColorRow_length (cpp : ℕ) (data : List ℕ) (w i : ℕ) :
    (pngColorRow cpp data w i).length = 1 + cpp * w := by
  unfold pngColorRow
  rw [List.length_cons]
  rw [flatMap_range_length cpp _ (fun k => by simp)]
  ring

theorem pngAlphaRow_length (cpp : ℕ) (data : List ℕ) (w i : ℕ) :
    (pngAlphaRow cpp data w i).length = 1 + w := by
  unfold pngAlphaRow
  simp
  ring

theorem pngSplitColor_getD (cpp : ℕ) (data : List ℕ) (w h i t : ℕ) (d : ℕ)
    (hi : i < h) (ht : t < 1 + cpp * w) :
    (pngSplitColor cpp data w h).getD ((1 + cpp * w) * i + t) d =
      (pngColorRow cpp data w i).getD t d := by
  rw [pngSplitColor_eq_rows]
  exact flatMap_range_getD (1 + cpp * w) d i h _ (fun n => pngColorRow_length cpp data w n)
    hi t ht

theorem pngSplitAlpha_getD (cpp : ℕ) (data : List ℕ) (w h i t : ℕ) (d : ℕ)
    (hi : i < h) (ht : t < 1 + w) :
    (pngSplitAlpha cpp data w h).getD ((1 + w) * i + t) d =
      (pngAlphaRow cpp data w i).getD t d := by
  rw [pngSplitAlpha_eq_rows]
  exact flatMap_range_getD (1 + w) d i h _ (fun n => pngAlphaRow_length cpp data w n)
    hi t ht

theorem pngColorRow_getD_head (cpp : ℕ) (data : List ℕ) (w i : ℕ) (d : ℕ) :
    (pngColorRow cpp data w i).getD 0 d = data.getD ((1 + (cpp + 1) * w) * i) 0 := rfl

theorem pngColorRow_getD_pix (cpp : ℕ) (data : List ℕ) (w i k m : ℕ) (d : ℕ)
    (hk : k < w) (hm : m < cpp) :
    (pngColorRow cpp data w i).getD (1 + cpp * k + m) d =
      data.getD ((1 + (cpp + 1) * w) * i + 1 + (cpp + 1) * k + m) 0 := by
  unfold pngColorRow
  have hpos : 1 + cpp * k + m = (cpp * k + m) + 1 := by ring
  rw [hpos]
  rw [List.getD_cons_succ]
  rw [flatMap_range_getD cpp d k w _ (fun n => by simp) hk m hm]
  exact getD_map_range _ d hm

theorem pngAlphaRow_getD_head (cpp : ℕ) (data : List ℕ) (w i : ℕ) (d : ℕ) :
    (pngAlphaRow cpp data w i).getD 0 d = data.getD ((1 + (cpp + 1) * w) * i) 0 := rfl

theorem pngAlphaRow_getD_pix (cpp : ℕ) (data : List ℕ) (w i k : ℕ) (d : ℕ)
    (hk : k < w) :
    (pngAlphaRow cpp data w i).getD (1 + k) d =
      data.getD ((1 + (cpp + 1) * w) * i + 1 + (cpp + 1) * k + cpp) 0 := by
  unfold pngAlphaRow
  have hpos : 1 + k = k + 1 := by ring
  rw [hpos, List.getD_cons_succ]
  exact getD_map_range _ d hk

/-- The core lossless recomposition: de-interleaving and per-pixel
re-merging reconstruct the original interleaved rows exactly. -/
theorem pngMerge_split (cpp : ℕ) (data : List ℕ) (w h : ℕ)
    (hlen : data.length = h * (1 + (cpp + 1) * w)) :
    pngMerge cpp (pngSplitColor cpp data w h) (pngSplitAlpha cpp data w h) w h = data := by
  have hdata : data = (List.range (h * (1 + (cpp + 1) * w))).map (fun p => data.getD p 0) := by
    conv_lhs => rw [← list_eq_range_map data 0]
    rw [hlen]
  conv_rhs => rw [hdata]
  rw [range_mul_map (1 + (cpp + 1) * w) _ h]
  unfold pngMerge
  apply flatMap_range_congr
  intro i hi
  have hrow : (List.range (1 + (cpp + 1) * w)).map
        (fun r => data.getD ((1 + (cpp + 1) * w) * i + r) 0) =
      data.getD ((1 + (cpp + 1) * w) * i) 0 ::
        (List.range ((cpp + 1) * w)).map
          (fun r => data.getD ((1 + (cpp + 1) * w) * i + (r + 1)) 0) := by
    have h1 : 1 + (cpp + 1) * w = (cpp + 1) * w + 1 := by ring
    rw [h1, List.range_succ_eq_map, List.map_cons, List.map_map]
    simp
  rw [hrow]
  congr 1
  · -- the filter byte of row i
    have := pngSplitColor_getD cpp data w h i 0 0 hi (by omega)
    rw [pngColorRow_getD_head] at this
    exact this
  · -- the pixels of row i
    have h2 : (cpp + 1) * w = w * (cpp + 1) := by ring
    rw [h2, range_mul_map (cpp + 1) _ w]
    apply flatMap_range_congr
    intro k hk
    rw [List.range_succ, List.map_append]
    congr 1
    · -- cpp color bytes of pixel k
      apply List.map_congr_left
      intro m hm
      have hmcpp : m < cpp := List.mem_range.mp hm
      have hpos1 : (1 + cpp * w) * i + 1 + cpp * k + m =
          (1 + cpp * w) * i + (1 + cpp * k + m) := by ring
      rw [hpos1]
      have htb : 1 + cpp * k + m < 1 + cpp * w := by
        have hmul := Nat.mul_le_mul_left cpp (show k + 1 ≤ w by omega)
        have hexp : cpp * (k + 1) = cpp * k + cpp := by ring
        omega
      rw [pngSplitColor_getD cpp data w h i (1 + cpp * k + m) 0 hi htb]
      rw [pngColorRow_getD_pix cpp data w i k m 0 hk hmcpp]
      apply congrArg (fun p => data.getD p 0)
      ring
    · -- the alpha byte of pixel k
      simp only [List.map_cons, List.map_nil]
      have hpos2 : (1 + w) * i + 1 + k = (1 + w) * i + (1 + k) := by ring
      rw [hpos2]
      rw [pngSplitAlpha_getD cpp data w h i (1 + k) 0 hi (by omega)]
      rw [pngAlphaRow_getD_pix cpp data w i k 0 hk]
      have hpos3 : (1 + (cpp + 1) * w) * i + 1 + (cpp + 1) * k + cpp =
          (1 + (cpp + 1) * w) * i + ((cpp + 1) * k + cpp + 1) := by ring
      rw [hpos3]
      apply congrArg (fun p => [data.getD p 0])
      ring

theorem flatMap_singleton_map {α β : Type} (l : List α) (f : α → β) :
    (l.flatMap fun a => [f a]) = l.map f := by
  induction l with
  | nil => rfl
  | cons a t ih => simp [List.flatMap_cons, ih]

theorem splitColorGray_eq (data : List ℕ) (w h : ℕ) :
    splitColorGray data w h = pngSplitColor 1 data w h := by
  unfold splitColorGray pngSplitColor
  apply congrArg
  funext i
  congr 1
  rw [← flatMap_singleton_map]
  rfl

theorem splitAlphaGray_eq (data : List ℕ) (w h : ℕ) :
    splitAlphaGray data w h = pngSplitAlpha 1 data w h := rfl

theorem splitColorRGB_eq (data : List ℕ) (w h : ℕ) :
    splitColorRGB data w h = pngSplitColor 3 data w h := rfl

theorem splitAlphaRGB_eq (data : List ℕ) (w h : ℕ) :
    splitAlphaRGB data w h = pngSplitAlpha 3 data w h := rfl

/-! ## Claim C6 -/

/-- C6: for PNG color type 4 (gray+alpha) and 6 (RGB+alpha), the
row-by-row de-interleaving of the inflated pixel data into a color
stream and an alpha stream (each keeping the row's filter-type byte),
followed by compression and re-inflation by any lossless codec, then
per-pixel re-merging of the color bytes and the alpha byte, reproduces
the original interleaved data exactly. -/
theorem c6_theorem (comp uncomp : List ℕ → List ℕ)
    (hlossless : ∀ x, uncomp (comp x) = x)
    (data : List ℕ) (w h : ℕ) :
    (data.length = h * (1 + 2 * w) →
      pngMerge 1 (uncomp (comp (splitColorGray data w h)))
        (uncomp (comp (splitAlphaGray data w h))) w h = data) ∧
    (data.length = h * (1 + 4 * w) →
      pngMerge 3 (uncomp (comp (splitColorRGB data w h)))
        (uncomp (comp (splitAlphaRGB data w h))) w h = data) := by
  constructor
  · intro hl
    rw [hlossless, hlossless, splitColorGray_eq, splitAlphaGray_eq]
    apply pngMerge_split
    exact hl
  · intro hl
    rw [hlossless, hlossless, splitColorRGB_eq, splitAlphaRGB_eq]
    apply pngMerge_split
    exact hl

/-- A 2-pixel RGBA row and a 1-pixel gray+alpha row. -/
def pngSampleRGBA : List ℕ := [7, 1, 2, 3, 9, 4, 5, 6, 8]

def pngSampleGA : List ℕ := [5, 10, 20]

/-- Witness for C6: both round trips evaluated on concrete rows with
the identity codec. -/
theorem c6_theorem_witness :
    pngMerge 1 (id (id (splitColorGray pngSampleGA 1 1)))
        (id (id (splitAlphaGray pngSampleGA 1 1))) 1 1 = pngSampleGA ∧
    pngMerge 3 (id (id (splitColorRGB pngSampleRGBA 2 1)))
        (id (id (splitAlphaRGB pngSampleRGBA 2 1))) 2 1 = pngSampleRGBA :=
  ⟨(c6_theorem id id (fun _ => rfl) pngSampleGA 1 1).1 (by decide),
   (c6_theorem id id (fun _ => rfl) pngSampleRGBA 2 1).2 (by decide)⟩

/-! ## Claim C1 -/

/-- C1: FALSE as stated.  The claim says that *every* public operation,
color setters included, returns immediately without side effects when
the error latch is set.  `SetDrawColor` never checks the latch: called
on a latched fresh document it overwrites the stored draw color
(`"0 G"` becomes `"1.000 G"`), so the document changes. -/
theorem c1_counterexample :
    docLatched.err.isSome = true ∧ docLatched.setDrawColor 255 255 255 ≠ docLatched := by
  constructor
  · rfl
  · decide

/-- C1 (amended): for cell/text emission (`CellFormat`), page addition
(`AddPage`/`AddPageFormat`), font registration and selection
(`AddFont`/`SetFont`) and finalize (`Output`), a set error latch makes
the operation return immediately with the document unchanged (and
`Output` writes nothing); the color setters are excluded, as they do not
check the latch. -/
theorem c1_amended (zc : String → String) (now : String) (d : Doc)
    (hlatch : d.err.isSome) (w h : ℚ) (txt : List ℕ) (border : String) (ln : ℕ)
    (align : String) (fill : Bool) (link : ℕ) (linkStr : String)
    (o : String) (size : SizeType) (fam sty file : String) (sz : ℚ) :
    d.cellFormat w h txt border ln align fill link linkStr = some d ∧
    d.addPageFormat o size = some d ∧
    d.addPage = some d ∧
    d.addFont fam sty file = some d ∧
    d.setFont fam sty sz = some d ∧
    output zc now d = some (d, "") := by
  refine ⟨?_, ?_, ?_, ?_, ?_, ?_⟩ <;>
    simp [Doc.cellFormat, Doc.addPageFormat, Doc.addPage, Doc.addFont, Doc.setFont,
      output, hlatch]

/-- Witness for C1 (amended) at the concrete latched document. -/
theorem c1_amended_witness :
    docLatched.err.isSome = true ∧
    (docLatched.cellFormat 10 5 [72] "" 0 "L" false 0 "" = some docLatched ∧
     docLatched.addPageFormat "P" { wd := 10, ht := 10 } = some docLatched ∧
     docLatched.addPage = some docLatched ∧
     docLatched.addFont "helvetica" "" "" = some docLatched ∧
     docLatched.setFont "helvetica" "" 12 = some docLatched ∧
     output zcId "now" docLatched = some (docLatched, "")) :=
  ⟨rfl, c1_amended zcId "now" docLatched rfl 10 5 [72] "" 0 "L" false 0 ""
    "P" { wd := 10, ht := 10 } "helvetica" "" "" 12⟩

/-! ## Claim C2 -/

/-- C2: FALSE as stated.  `Output` writes the buffer with
`bytes.Buffer.WriteTo`, which drains it, so on the concrete closed,
error-free default document the first call writes the document bytes
and the second call writes nothing: the two outputs are not
byte-identical. -/
theorem c2_counterexample :
    docClosed.state = 3 ∧ docClosed.err = none ∧
    (output zcId "20260101120000" docClosed).map (fun p => p.2) ≠
      ((output zcId "20260101120000" docClosed).bind
        (fun p => output zcId "20260101120000" p.1)).map (fun p => p.2) := by
  refine ⟨by decide, by decide, by decide⟩

/-- C2 (amended): on a Closed document with no latched error, `Output`
writes the buffered bytes and empties the buffer, so a second `Output`
succeeds but writes the empty byte string. -/
theorem c2_amended (zc : String → String) (now : String) (d : Doc)
    (h3 : d.state = 3) (he : d.err = none) :
    output zc now d = some ({ d with buffer := [] }, render d.buffer) ∧
    output zc now ({ d with buffer := [] }) = some ({ d with buffer := [] }, "") := by
  constructor
  · simp [output, h3, he]
  · simp [output, h3, he, render, String.join]

/-- Witness for C2 (amended) at the concrete closed document. -/
theorem c2_amended_witness :
    docClosed.state = 3 ∧ docClosed.err = none ∧
    (output zcId "x" docClosed = some ({ docClosed with buffer := [] }, render docClosed.buffer) ∧
     output zcId "x" ({ docClosed with buffer := [] }) =
       some ({ docClosed with buffer := [] }, "")) :=
  ⟨by decide, by decide, c2_amended zcId "x" docClosed (by decide) (by decide)⟩

/-! ## Claim C3 -/

/-- C3: the code is wrong.  Registering any font definition that carries
a non-empty encoding-difference table not already interned makes
`AddFont` execute `f.diffs[n] = info.Diff` with `n = len(f.diffs)+1`, an
out-of-range slice write: a runtime panic (`none`), not the append the
claim (and the function's own purpose) describes.  Since the table can
therefore never grow, this fires for every first font with a difference
table. -/
theorem c3_theorem (d : Doc) (familyStr styleStr fileStr : String) (info : FontDefType)
    (he : d.err = none)
    (hnew : assocGet d.fonts (strToLower familyStr ++
      (if strToUpper styleStr = "IB" then "BI" else strToUpper styleStr)) = none)
    (hload : assocGet d.fontDir (pathJoin d.fontpath
      (if fileStr = "" then removeSpaces (strToLower familyStr) ++ strToLower styleStr ++ ".json"
       else fileStr)) = some info)
    (hdiff : 0 < info.Diff.length)
    (hfresh : d.diffs.findIdx? (· = info.Diff) = none) :
    d.addFont familyStr styleStr fileStr = none := by
  have hgs : ¬ d.diffs.length + 1 < d.diffs.length := by omega
  simp [Doc.addFont, Doc.loadfont, he, hnew, hload, hdiff, hfresh, goSet, hgs]

/-- A concrete font definition carrying a difference table. -/
def fontDefWithDiff : FontDefType :=
  { emptyFontDef with Tp := "TrueType", Name := "Deja", Diff := "32 /space" }

/-- Witness document whose font directory holds that definition. -/
def docWithFontDir : Doc := { docStd with fontDir := [("x.json", fontDefWithDiff)] }

/-- Witness for C3: the failing input evaluated — the first `AddFont` of
a font with a difference table panics. -/
theorem c3_theorem_witness :
    docWithFontDir.addFont "deja" "" "x.json" = none :=
  c3_theorem docWithFontDir "deja" "" "x.json" fontDefWithDiff rfl (by decide)
    (by decide) (by decide) (by decide)

/-! ## Serializer structure lemmas (for Claims C8, C9, C10)

With no page open (`state ≠ 2`), `out`, `newobj` and `putstream` only
append to the document buffer; `newobj` additionally advances the
object counter and records the current buffer length as the new
object's offset.  `serExt` captures the append-only behaviour of a
whole serializer pass. -/

theorem out_eq (d : Doc) (s : String) (h : d.state ≠ 2) :
    d.out s = { d with buffer := d.buffer ++ [s] } := by
  simp [Doc.out, h]

theorem newobj_eq (d : Doc) (h : d.state ≠ 2) :
    d.newobj =
      { d with
          n := d.n + 1,
          offsets := (growOffsets d.offsets (d.n + 1)).set (d.n + 1) (bufLen d.buffer),
          buffer := d.buffer ++ [natStr (d.n + 1) ++ " 0 obj"] } := by
  simp [Doc.newobj, Doc.out, h]

theorem out_state (d : Doc) (s : String) : (d.out s).state = d.state := by
  unfold Doc.out
  split <;> rfl

theorem growOffsets_length (offs : List ℕ) (n : ℕ) :
    (growOffsets offs n).length = max offs.length (n + 1) := by
  simp only [growOffsets, List.length_append, List.length_replicate]
  omega

theorem foldl_out {α : Type} (f : α → String) (l : List α) :
    ∀ d : Doc, d.state ≠ 2 →
      l.foldl (fun acc x => acc.out (f x)) d = { d with buffer := d.buffer ++ l.map f } := by
  induction l with
  | nil => intro d _; simp
  | cons x t ih =>
    intro d h
    have hrec := ih { d with buffer := d.buffer ++ [f x] } h
    rw [List.foldl_cons, out_eq d _ h, hrec]
    simp

theorem goSet_eq {α : Type} {l : List α} {i : ℕ} {a : α} {l' : List α}
    (h : goSet l i a = some l') : i < l.length ∧ l' = l.set i a := by
  unfold goSet at h
  split at h
  · exact ⟨by assumption, (Option.some.inj h).symm⟩
  · cases h

/-- `aliasApply` only rewrites the page buffers. -/
theorem aliasApply_eq (d : Doc) : ∃ pgs, aliasApply d = { d with pages := pgs } := by
  unfold aliasApply
  split
  · exact ⟨_, rfl⟩
  · exact ⟨d.pages, by simp⟩

/-- A serializer pass only appends to the buffer and never touches
state, page number or page-size table, nor shrinks the offsets table. -/
def serExt (d d' : Doc) : Prop :=
  (∃ ext, d'.buffer = d.buffer ++ ext) ∧ d'.state = d.state ∧ d'.page = d.page ∧
    d'.pageSizes = d.pageSizes ∧ d.offsets.length ≤ d'.offsets.length

theorem serExt_refl (d : Doc) : serExt d d :=
  ⟨⟨[], by simp⟩, rfl, rfl, rfl, le_rfl⟩

theorem serExt_state {d d' : Doc} (h : serExt d d') : d'.state = d.state := h.2.1

theorem serExt_trans {a b c : Doc} (h1 : serExt a b) (h2 : serExt b c) : serExt a c := by
  obtain ⟨⟨e1, he1⟩, hs1, hp1, hz1, ho1⟩ := h1
  obtain ⟨⟨e2, he2⟩, hs2, hp2, hz2, ho2⟩ := h2
  exact ⟨⟨e1 ++ e2, by rw [he2, he1, List.append_assoc]⟩, hs2.trans hs1, hp2.trans hp1,
    hz2.trans hz1, le_trans ho1 ho2⟩

theorem serExt_out {d : Doc} (s : String) (h : d.state ≠ 2) : serExt d (d.out s) := by
  rw [out_eq d s h]
  exact ⟨⟨[s], rfl⟩, rfl, rfl, rfl, le_rfl⟩

theorem serExt_newobj {d : Doc} (h : d.state ≠ 2) : serExt d d.newobj := by
  rw [newobj_eq d h]
  refine ⟨⟨[natStr (d.n + 1) ++ " 0 obj"], rfl⟩, rfl, rfl, rfl, ?_⟩
  simp only [List.length_set, growOffsets_length]
  omega

theorem serExt_chainOut {d0 d1 : Doc} (h0 : d0.state ≠ 2) (h : serExt d0 d1) (s : String) :
    serExt d0 (d1.out s) :=
  serExt_trans h (serExt_out s (by rw [serExt_state h]; exact h0))

theorem serExt_chainIf {d0 d1 : Doc} (h0 : d0.state ≠ 2) (h : serExt d0 d1)
    (c : Prop) [Decidable c] (s : String) :
    serExt d0 (if c then d1.out s else d1) := by
  split
  · exact serExt_chainOut h0 h s
  · exact h

theorem serExt_chainNewobj {d0 d1 : Doc} (h0 : d0.state ≠ 2) (h : serExt d0 d1) :
    serExt d0 d1.newobj :=
  serExt_trans h (serExt_newobj (by rw [serExt_state h]; exact h0))

theorem serExt_chainPutstream {d0 d1 : Doc} (h0 : d0.state ≠ 2) (h : serExt d0 d1)
    (b : String) : serExt d0 (d1.putstream b) := by
  unfold Doc.putstream
  exact serExt_chainOut h0 (serExt_chainOut h0 (serExt_chainOut h0 h "stream") b) "endstream"

theorem serExt_chainFoldlOut {α : Type} {d0 d1 : Doc} (h0 : d0.state ≠ 2) (h : serExt d0 d1)
    (f : α → String) (l : List α) :
    serExt d0 (l.foldl (fun acc x => acc.out (f x)) d1) := by
  rw [foldl_out f l d1 (by rw [serExt_state h]; exact h0)]
  exact serExt_trans h ⟨⟨_, rfl⟩, rfl, rfl, rfl, le_rfl⟩

theorem serExt_foldl {α : Type} (step : Doc → α → Doc) (d0 : Doc)
    (hstep : ∀ dd x, serExt d0 dd → serExt dd (step dd x)) :
    ∀ (l : List α) (d : Doc), serExt d0 d → serExt d0 (l.foldl step d) := by
  intro l
  induction l with
  | nil => intro d h; exact h
  | cons x t ih => intro d h; exact ih _ (serExt_trans h (hstep d x h))

/-- The `/MediaBox` line a page object carries when the page has an
override size. -/
def mediaBoxLines (pageSizes : List (ℕ × SizeType)) (pg : ℕ) : List String :=
  match iassocGet pageSizes pg with
  | some sz => ["/MediaBox [0 0 " ++ fmtFixed 2 sz.wd ++ " " ++ fmtFixed 2 sz.ht ++ "]"]
  | none => []

/-- The transparency-group line (PDF version above 1.3). -/
def groupLines (pdfVersion : String) : List String :=
  if strLt "1.3" pdfVersion then ["/Group <</Type /Group /S /Transparency /CS /DeviceRGB>>"]
  else []

/-- The contents-object body lines for one page. -/
def contentsLines (zc : String → String) (compress : Bool) (content : String) : List String :=
  if compress then
    ["<</Filter /FlateDecode /Length " ++ natStr (zc content).length ++ ">>",
     "stream", zc content, "endstream", "endobj"]
  else
    ["<</Length " ++ natStr content.length ++ ">>", "stream", content, "endstream", "endobj"]

/-- The buffer block `putpages` emits for one page: the page object
numbered `num`, immediately followed by its contents object numbered
`num + 1` (`ann` is the page's `/Annots` line, if any). -/
def pageBlock (zc : String → String) (d : Doc) (num pg : ℕ) (ann : List String) :
    List String :=
  (natStr num ++ " 0 obj") :: "<</Type /Page" :: "/Parent 1 0 R" ::
    (mediaBoxLines d.pageSizes pg ++ ["/Resources 2 0 R"] ++ ann ++
     groupLines d.pdfVersion ++
     ["/Contents " ++ natStr (num + 1) ++ " 0 R>>", "endobj", natStr (num + 1) ++ " 0 obj"] ++
     contentsLines zc d.compress (render (d.pages.getD pg [])))


theorem pageObjEmit_spec (zc : String → String) (hPt : ℚ) (d : Doc) (pg : ℕ)
    (h : d.state ≠ 2) (d1 : Doc) (he : pageObjEmit zc hPt d pg = some d1) :
    ∃ ann offs,
      d1 = { d with
               buffer := d.buffer ++ pageBlock zc d (d.n + 1) pg ann,
               n := d.n + 2, offsets := offs } ∧
      offs.length = max d.offsets.length (d.n + 3) := by
  simp only [pageObjEmit, out_eq, newobj_eq, Doc.putstream, h, ne_eq, not_false_eq_true] at he
  rcases hms : iassocGet d.pageSizes pg with _ | sz <;>
    simp only [hms, out_eq, newobj_eq, Doc.putstream, h, ne_eq, not_false_eq_true] at he <;>
    by_cases hpl : 0 < (d.pageLinks.getD pg []).length <;>
    simp only [hpl, if_true, if_false, eq_self_iff_true] at he
  case pos =>
    rcases hann : annotsLine d.links d.pageSizes hPt d.k (d.pageLinks.getD pg []) with _ | a
    · rw [hann] at he
      exact Option.noConfusion he
    · rw [hann] at he
      simp only [out_eq, newobj_eq, Doc.putstream, h, ne_eq, not_false_eq_true] at he
      by_cases hgr : strLt "1.3" d.pdfVersion = true <;>
        by_cases hcp : d.compress = true <;>
        simp only [hgr, hcp, out_eq, newobj_eq, Doc.putstream, h, ne_eq, not_false_eq_true,
          if_true, if_false, ite_true, ite_false, eq_self_iff_true, Bool.false_eq_true] at he <;>
        injection he with he2 <;>
        refine ⟨[a], d1.offsets, ?_, ?_⟩ <;>
        rw [← he2] <;>
        simp only [pageBlock, mediaBoxLines, groupLines, contentsLines, hms, hgr, hcp,
          Doc.mk.injEq, List.append_assoc, List.cons_append, List.singleton_append,
          List.nil_append, List.length_set, growOffsets_length, if_true, if_false,
          ite_true, ite_false, eq_self_iff_true, Bool.false_eq_true, and_true, true_and,
          and_self] <;>
        omega
  case neg =>
    by_cases hgr : strLt "1.3" d.pdfVersion = true <;>
      by_cases hcp : d.compress = true <;>
      simp only [hgr, hcp, out_eq, newobj_eq, Doc.putstream, h, ne_eq, not_false_eq_true,
          if_true, if_false, ite_true, ite_false, eq_self_iff_true, Bool.false_eq_true] at he <;>
      injection he with he2 <;>
      refine ⟨[], d1.offsets, ?_, ?_⟩ <;>
      rw [← he2] <;>
      simp only [pageBlock, mediaBoxLines, groupLines, contentsLines, hms, hgr, hcp,
        Doc.mk.injEq, List.append_assoc, List.cons_append, List.singleton_append,
        List.nil_append, List.length_set, growOffsets_length, if_true, if_false,
        ite_true, ite_false, eq_self_iff_true, Bool.false_eq_true, and_true, true_and,
        and_self] <;>
      omega
  case pos =>
    rcases hann : annotsLine d.links d.pageSizes hPt d.k (d.pageLinks.getD pg []) with _ | a
    · rw [hann] at he
      exact Option.noConfusion he
    · rw [hann] at he
      simp only [out_eq, newobj_eq, Doc.putstream, h, ne_eq, not_false_eq_true] at he
      by_cases hgr : strLt "1.3" d.pdfVersion = true <;>
        by_cases hcp : d.compress = true <;>
        simp only [hgr, hcp, out_eq, newobj_eq, Doc.putstream, h, ne_eq, not_false_eq_true,
          if_true, if_false, ite_true, ite_false, eq_self_iff_true, Bool.false_eq_true] at he <;>
        injection he with he2 <;>
        refine ⟨[a], d1.offsets, ?_, ?_⟩ <;>
        rw [← he2] <;>
        simp only [pageBlock, mediaBoxLines, groupLines, contentsLines, hms, hgr, hcp,
          Doc.mk.injEq, List.append_assoc, List.cons_append, List.singleton_append,
          List.nil_append, List.length_set, growOffsets_length, if_true, if_false,
          ite_true, ite_false, eq_self_iff_true, Bool.false_eq_true, and_true, true_and,
          and_self] <;>
        omega
  case neg =>
    by_cases hgr : strLt "1.3" d.pdfVersion = true <;>
      by_cases hcp : d.compress = true <;>
      simp only [hgr, hcp, out_eq, newobj_eq, Doc.putstream, h, ne_eq, not_false_eq_true,
          if_true, if_false, ite_true, ite_false, eq_self_iff_true, Bool.false_eq_true] at he <;>
      injection he with he2 <;>
      refine ⟨[], d1.offsets, ?_, ?_⟩ <;>
      rw [← he2] <;>
      simp only [pageBlock, mediaBoxLines, groupLines, contentsLines, hms, hgr, hcp,
        Doc.mk.injEq, List.append_assoc, List.cons_append, List.singleton_append,
        List.nil_append, List.length_set, growOffsets_length, if_true, if_false,
        ite_true, ite_false, eq_self_iff_true, Bool.false_eq_true, and_true, true_and,
        and_self] <;>
      omega


/-- The per-page loop of `putpages` starting at page `p` with the
object counter at `2*p` appends, per page `p+t`, the page-object block
numbered `2*(p+t)+1` (contents object `2*(p+t)+2`), advancing the
counter by two per page. -/
theorem pagesLoop_spec (zc : String → String) (hPt : ℚ) :
    ∀ (count p : ℕ) (d d' : Doc), d.state ≠ 2 → d.n = 2 * p →
      pagesLoop zc hPt count p d = some d' →
      ∃ (anns : ℕ → List String) (offs : List ℕ),
        d' = { d with
                 buffer := d.buffer ++ (List.range count).flatMap
                   (fun t => pageBlock zc d (2 * (p + t) + 1) (p + t) (anns t)),
                 n := d.n + 2 * count, offsets := offs } ∧
        d.offsets.length ≤ offs.length ∧
        (1 ≤ count → d.n + 3 ≤ offs.length) := by
  intro count
  induction count with
  | zero =>
    intro p d d' h hn he
    simp only [pagesLoop] at he
    injection he with he2
    subst he2
    refine ⟨fun _ => [], d.offsets, ?_, le_rfl, ?_⟩
    · simp
    · omega
  | succ c ih =>
    intro p d d' h hn he
    simp only [pagesLoop] at he
    rcases hse : pageObjEmit zc hPt d p with _ | dm <;> rw [hse] at he
    · exact Option.noConfusion he
    · obtain ⟨ann0, offs1, hdm, hlen1⟩ := pageObjEmit_spec zc hPt d p h dm hse
      replace he : pagesLoop zc hPt c (p + 1) dm = some d' := he
      obtain ⟨anns, offs, hd', hle, _⟩ :=
        ih (p + 1) dm d' (by rw [hdm]; exact h)
          (by rw [hdm]; show d.n + 2 = 2 * (p + 1); omega) he
      rw [hdm] at hd' hle
      have hle' : offs1.length ≤ offs.length := hle
      refine ⟨fun t => match t with | 0 => ann0 | t' + 1 => anns t', offs, ?_, ?_, ?_⟩
      · rw [hd']
        simp only [Doc.mk.injEq, and_true, true_and, List.append_assoc]
        refine ⟨by omega, ?_⟩
        rw [List.range_succ_eq_map, List.flatMap_cons, flatMap_map_succ, hn]
        simp only [Nat.add_zero, List.append_assoc, List.append_right_inj]
        refine flatMap_range_congr _ _ c (fun i hi => ?_)
        show pageBlock zc _ (2 * (p + 1 + i) + 1) (p + 1 + i) (anns i)
          = pageBlock zc d (2 * (p + (i + 1)) + 1) (p + (i + 1)) (anns i)
        rw [(by omega : p + 1 + i = p + (i + 1))]
        rfl
      · omega
      · intro _
        omega


theorem getD_set_self {α : Type} (l : List α) (i : ℕ) (a d0 : α) (h : i < l.length) :
    (l.set i a).getD i d0 = a := by
  rw [List.getD_eq_getElem?_getD, List.getElem?_set_self (by simpa using h)]
  rfl

/-- Width and height, in points, of the default page size as `putpages`
computes them for the pages-root `/MediaBox`. -/
def pagesWPt (d : Doc) : ℚ :=
  if d.defOrientation = "P" then d.defPageSize.wd * d.k else d.defPageSize.ht * d.k

def pagesHPt (d : Doc) : ℚ :=
  if d.defOrientation = "P" then d.defPageSize.ht * d.k else d.defPageSize.wd * d.k

/-- The pages-root object (object 1): its `/Kids` array references the
page objects `3 + 2*i`. -/
def pagesRootBlock (d : Doc) : List String :=
  ["1 0 obj", "<</Type /Pages",
   "/Kids [" ++ String.join ((List.range d.page).map
     (fun i => natStr (3 + 2 * i) ++ " 0 R ")) ++ "]",
   "/Count " ++ natStr d.page,
   "/MediaBox [0 0 " ++ fmtFixed 2 (pagesWPt d) ++ " " ++ fmtFixed 2 (pagesHPt d) ++ "]",
   ">>", "endobj"]

theorem putpages_spec (zc : String → String) (d : Doc) (h : d.state ≠ 2) (hn : d.n = 2)
    (d' : Doc) (he : putpages zc d = some d') :
    ∃ (anns : ℕ → List String) (offs : List ℕ),
      d' = { aliasApply d with
               buffer := d.buffer ++
                 ((List.range d.page).flatMap
                   (fun i => pageBlock zc (aliasApply d) (3 + 2 * i) (1 + i) (anns i)) ++
                  pagesRootBlock d),
               n := 2 + 2 * d.page, offsets := offs } ∧
      offs.getD 1 0 = bufLen (d.buffer ++ (List.range d.page).flatMap
        (fun i => pageBlock zc (aliasApply d) (3 + 2 * i) (1 + i) (anns i))) ∧
      d.offsets.length ≤ offs.length ∧ (1 ≤ d.page → 5 ≤ offs.length) := by
  obtain ⟨pgs, hal⟩ := aliasApply_eq d
  simp only [putpages] at he
  rw [hal] at he ⊢
  split at he
  · exact Option.noConfusion he
  next dL heq =>
    obtain ⟨anns, offsL, hdL, hleL, hgeL⟩ :=
      pagesLoop_spec zc _ d.page 1 { d with pages := pgs } dL h
        (by show d.n = 2 * 1; omega) heq
    have hFM : (List.range d.page).flatMap
          (fun t => pageBlock zc { d with pages := pgs } (2 * (1 + t) + 1) (1 + t) (anns t))
        = (List.range d.page).flatMap
          (fun i => pageBlock zc { d with pages := pgs } (3 + 2 * i) (1 + i) (anns i)) :=
      flatMap_range_congr _ _ d.page (fun i hi => by
        rw [(by omega : 2 * (1 + i) + 1 = 3 + 2 * i)])
    rw [hFM] at hdL
    rw [hdL] at he
    split at he
    · exact Option.noConfusion he
    next offs0 heq2 =>
      obtain ⟨h1lt, hset⟩ := goSet_eq heq2
      have hleL' : d.offsets.length ≤ offsL.length := hleL
      have hgeL' : 1 ≤ d.page → d.n + 3 ≤ offsL.length := hgeL
      have h1lt' : 1 < offsL.length := h1lt
      simp only [out_eq, h, ne_eq, not_false_eq_true] at he
      injection he with he2
      refine ⟨anns, offs0, ?_, ?_, ?_, ?_⟩
      · rw [← he2, hset]
        simp only [Doc.mk.injEq, pagesRootBlock, pagesWPt, pagesHPt, List.append_assoc,
          and_true, true_and]
        exact ⟨by omega, rfl⟩
      · rw [hset]
        exact getD_set_self _ 1 _ 0 h1lt'
      · rw [hset]
        simp only [List.length_set]
        exact hleL'
      · intro hp
        rw [hset]
        simp only [List.length_set]
        have := hgeL' hp
        omega


theorem serExt_putdiffs (d : Doc) (h : d.state ≠ 2) : serExt d (putdiffs d) := by
  refine serExt_foldl _ d ?_ d.diffs d (serExt_refl d)
  intro dd diff hdd
  have h2 : dd.state ≠ 2 := by rw [serExt_state hdd]; exact h
  exact serExt_chainOut h2 (serExt_chainOut h2 (serExt_chainNewobj h2 (serExt_refl dd)) _) _

theorem serExt_putfontFiles :
    ∀ (l : List (String × FontFileType)) (d d' : Doc),
      putfontFiles l d = some d' → d.state ≠ 2 → serExt d d' := by
  intro l
  induction l with
  | nil =>
    intro d d' he h
    simp only [putfontFiles] at he
    injection he with he2
    subst he2
    exact serExt_refl d
  | cons x t ih =>
    intro d d' he h
    simp only [putfontFiles, out_eq, newobj_eq, Doc.putstream, h, ne_eq, not_false_eq_true,
      List.append_assoc, List.cons_append, List.singleton_append, List.nil_append] at he
    repeat' (first
      | (exact Option.noConfusion he)
      | (split at he)
      | (simp only [out_eq, newobj_eq, Doc.putstream, h, ne_eq, not_false_eq_true,
          List.append_assoc, List.cons_append, List.singleton_append,
          List.nil_append] at he))
    all_goals try
      (injection he with he2
       subst he2
       refine ⟨⟨_, rfl⟩, rfl, rfl, rfl, ?_⟩
       simp only [List.length_set, growOffsets_length]
       omega)
    all_goals
      (refine serExt_trans ?_ (ih _ d' he h)
       refine ⟨⟨_, rfl⟩, rfl, rfl, rfl, ?_⟩
       simp only [List.length_set, growOffsets_length]
       omega)


theorem serExt_putfontsLoop (nf : ℕ) :
    ∀ (l : List (String × FontDefType)) (d : Doc), d.state ≠ 2 →
      serExt d (putfontsLoop nf l d) := by
  intro l
  induction l with
  | nil => intro d h; exact serExt_refl d
  | cons x t ih =>
    intro d h
    simp only [putfontsLoop, out_eq, newobj_eq, Doc.putstream, h, ne_eq, not_false_eq_true,
      List.append_assoc, List.cons_append, List.singleton_append, List.nil_append]
    repeat' (first
      | split
      | (simp only [out_eq, newobj_eq, Doc.putstream, h, ne_eq, not_false_eq_true,
          List.append_assoc, List.cons_append, List.singleton_append, List.nil_append]))
    all_goals try
      (refine serExt_trans ?_ (ih _ h)
       refine ⟨⟨_, rfl⟩, rfl, rfl, rfl, ?_⟩
       simp only [List.length_set, growOffsets_length]
       omega)
    all_goals try
      (refine ⟨⟨_, rfl⟩, rfl, rfl, rfl, ?_⟩
       simp only [List.length_set, growOffsets_length]
       omega)
    all_goals exact ⟨⟨[], by simp⟩, rfl, rfl, rfl, le_rfl⟩


theorem serExt_putfonts (d dF : Doc) (he : d.putfonts = some dF) (h : d.state ≠ 2) :
    serExt d dF := by
  simp only [Doc.putfonts] at he
  split at he
  · injection he with he2
    subst he2
    exact serExt_refl d
  · split at he
    · exact Option.noConfusion he
    next dm heq =>
      have hd1 : serExt d (putdiffs d) := serExt_putdiffs d h
      have h1 : (putdiffs d).state ≠ 2 := by rw [serExt_state hd1]; exact h
      have hd2 : serExt (putdiffs d) dm := serExt_putfontFiles _ _ _ heq h1
      have h2 : dm.state ≠ 2 := by rw [serExt_state hd2]; exact h1
      split at he
      · injection he with he2
        subst he2
        exact serExt_trans hd1 hd2
      · injection he with he2
        subst he2
        exact serExt_trans hd1 (serExt_trans hd2 (serExt_putfontsLoop _ _ _ h2))

set_option maxHeartbeats 1000000 in
theorem serExt_putimageMain (d : Doc) (info : ImageInfoType) (h : d.state ≠ 2) :
    serExt d (putimageMain d info).1 := by
  simp only [putimageMain]
  repeat' split
  all_goals
    simp only [out_eq, newobj_eq, Doc.putstream, h, ne_eq, not_false_eq_true,
      List.append_assoc, List.cons_append, List.singleton_append, List.nil_append]
  all_goals
    (refine ⟨⟨_, rfl⟩, rfl, rfl, rfl, ?_⟩
     simp only [List.length_set, growOffsets_length]
     omega)

theorem serExt_putimagePalette (zc : String → String) (d : Doc) (info : ImageInfoType)
    (h : d.state ≠ 2) : serExt d (putimagePalette zc d info) := by
  simp only [putimagePalette]
  repeat' split
  all_goals try
    simp only [out_eq, newobj_eq, Doc.putstream, h, ne_eq, not_false_eq_true,
      List.append_assoc, List.cons_append, List.singleton_append, List.nil_append]
  all_goals try
    (refine ⟨⟨_, rfl⟩, rfl, rfl, rfl, ?_⟩
     simp only [List.length_set, growOffsets_length]
     omega)
  all_goals exact serExt_refl d


theorem serExt_putimage (zc : String → String) (d : Doc) (info : ImageInfoType)
    (h : d.state ≠ 2) : serExt d (putimage zc d info).1 := by
  simp only [putimage]
  generalize hr : putimageMain d info = r
  have h1 : serExt d r.1 := by
    have := serExt_putimageMain d info h
    rw [hr] at this
    exact this
  obtain ⟨d1, info1⟩ := r
  have h1' : serExt d d1 := h1
  have hs1 : d1.state ≠ 2 := by rw [serExt_state h1']; exact h
  split
  · generalize hr2 : putimageMain d1
        { data := info1.smask.getD "", smask := none, i := 0, n := 0,
          w := info1.w, h := info1.h, cs := "DeviceGray", pal := "", bpc := 8,
          f := info1.f,
          dp := "/Predictor 15 /Colors 1 /BitsPerComponent 8 /Columns " ++
            intStr (ratTrunc info1.w),
          trns := [] } = r2
    have h2 : serExt d1 r2.1 := by
      have := serExt_putimageMain d1
        { data := info1.smask.getD "", smask := none, i := 0, n := 0,
          w := info1.w, h := info1.h, cs := "DeviceGray", pal := "", bpc := 8,
          f := info1.f,
          dp := "/Predictor 15 /Colors 1 /BitsPerComponent 8 /Columns " ++
            intStr (ratTrunc info1.w),
          trns := [] } hs1
      rw [hr2] at this
      exact this
    obtain ⟨d2, info2⟩ := r2
    have h2' : serExt d1 d2 := h2
    have hs2 : d2.state ≠ 2 := by rw [serExt_state h2']; exact hs1
    have h3 : serExt d2 (putimagePalette zc d2 info2) := serExt_putimagePalette zc d2 info2 hs2
    have hs3 : (putimagePalette zc d2 info2).state ≠ 2 := by rw [serExt_state h3]; exact hs2
    exact serExt_trans h1' (serExt_trans h2' (serExt_trans h3
      (serExt_putimagePalette zc _ info1 hs3)))
  · exact serExt_trans h1' (serExt_putimagePalette zc d1 info1 hs1)

theorem serExt_putimagesLoop (zc : String → String) :
    ∀ (l : List (String × ImageInfoType)) (d : Doc), d.state ≠ 2 →
      serExt d (putimagesLoop zc l d) := by
  intro l
  induction l with
  | nil => intro d h; exact serExt_refl d
  | cons x t ih =>
    intro d h
    obtain ⟨file, img⟩ := x
    simp only [putimagesLoop]
    generalize hr : putimage zc d img = r
    have h1 : serExt d r.1 := by
      have := serExt_putimage zc d img h
      rw [hr] at this
      exact this
    obtain ⟨d1, img1⟩ := r
    have h1' : serExt d d1 := h1
    have hs1 : d1.state ≠ 2 := by rw [serExt_state h1']; exact h
    refine serExt_trans (serExt_trans h1' ⟨⟨[], by simp⟩, rfl, rfl, rfl, le_rfl⟩) (ih _ ?_)
    exact hs1

theorem putresourcedict_ext (dd : Doc) (h : dd.state ≠ 2) :
    ∃ rest, putresourcedict dd = { dd with buffer := dd.buffer ++
      "/ProcSet [/PDF /Text /ImageB /ImageC /ImageI]" :: rest } := by
  simp only [putresourcedict, putxobjectdict, out_eq, foldl_out, h, ne_eq, not_false_eq_true,
    List.append_assoc, List.cons_append, List.singleton_append, List.nil_append]
  exact ⟨_, rfl⟩


/-- `putresources` appends the resource dictionary as object 2 (header
line `2 0 obj`), recording the byte offset at which that object starts
in slot 2 of the offsets table. -/
theorem putresources_spec (zc : String → String) (d d2 : Doc) (he : putresources zc d = some d2)
    (h : d.state ≠ 2) (herr : d2.err = none) :
    ∃ (mid rest : List String),
      d2.buffer = d.buffer ++ mid ++ "2 0 obj" :: "<<" ::
        "/ProcSet [/PDF /Text /ImageB /ImageC /ImageI]" :: rest ∧
      d2.offsets.getD 2 0 = bufLen (d.buffer ++ mid) ∧
      d2.state = d.state ∧ d2.page = d.page ∧ d2.pageSizes = d.pageSizes := by
  simp only [putresources] at he
  split at he
  next hc =>
    injection he with he2
    subst he2
    rw [herr] at hc
    exact absurd hc (by simp)
  next hc =>
    split at he
    · exact Option.noConfusion he
    next dF heqF =>
      have hsF : serExt d dF := serExt_putfonts d dF heqF h
      have hF2 : dF.state ≠ 2 := by rw [serExt_state hsF]; exact h
      split at he
      next hcf =>
        injection he with he2
        subst he2
        rw [herr] at hcf
        exact absurd hcf (by simp)
      next hcf =>
        generalize hI : putimagesLoop zc dF.images dF = dI at he
        have hsI : serExt d dI := by
          have := serExt_putimagesLoop zc dF.images dF hF2
          rw [hI] at this
          exact serExt_trans hsF this
        have hI2 : dI.state ≠ 2 := by rw [serExt_state hsI]; exact h
        split at he
        · exact Option.noConfusion he
        next offs0 heq2 =>
          obtain ⟨h2lt, hset⟩ := goSet_eq heq2
          obtain ⟨rest0, hrd⟩ := putresourcedict_ext
            { dI with offsets := offs0, buffer := dI.buffer ++ ["2 0 obj", "<<"] }
            (by exact hI2)
          simp only [out_eq, hI2, ne_eq, not_false_eq_true, List.append_assoc,
            List.cons_append, List.singleton_append, List.nil_append] at he
          rw [hrd] at he
          simp only [out_eq, hI2, ne_eq, not_false_eq_true, List.append_assoc,
            List.cons_append, List.singleton_append, List.nil_append] at he
          injection he with he2
          obtain ⟨extI, hbI⟩ := hsI.1
          refine ⟨extI, rest0 ++ [">>", "endobj"], ?_, ?_, ?_, ?_, ?_⟩
          · rw [← he2]
            simp only [List.append_assoc, List.cons_append, List.singleton_append,
              List.nil_append, hbI]
          · rw [← he2]
            show offs0.getD 2 0 = _
            rw [hset, getD_set_self _ 2 _ 0 h2lt, hbI]
          · rw [← he2]
            exact hsI.2.1
          · rw [← he2]
            exact hsI.2.2.1
          · rw [← he2]
            exact hsI.2.2.2.1


/-! ## Claim C8 -/

/-- C8: in a finalized document the object numbering is 1-based and
sequential in emission order.  `putpages` emits, for the i-th page
(i = 0, 1, ...), the block `pageBlock .. (3 + 2*i) ..` — which opens
with `natStr (3+2*i) ++ " 0 obj"` and is immediately followed by its
contents object numbered `(3+2*i) + 1` (see `pageBlock`) — leaves the
object counter at `2 + 2*page`, then emits the pages-root as object 1
(`pagesRootBlock`, whose `/Kids` lists exactly `3 + 2*i` for each page)
recording its byte offset in slot 1; `putresources` then emits the
resource dictionary as object 2, recording its byte offset in slot 2. -/
theorem c8_theorem (zc : String → String) (d : Doc) (h : d.state ≠ 2) (hn : d.n = 2)
    (d' : Doc) (he : putpages zc d = some d') :
    ∃ (anns : ℕ → List String) (offs : List ℕ),
      (d' = { aliasApply d with
                buffer := d.buffer ++
                  ((List.range d.page).flatMap
                    (fun i => pageBlock zc (aliasApply d) (3 + 2 * i) (1 + i) (anns i)) ++
                   pagesRootBlock d),
                n := 2 + 2 * d.page, offsets := offs } ∧
       offs.getD 1 0 = bufLen (d.buffer ++ (List.range d.page).flatMap
         (fun i => pageBlock zc (aliasApply d) (3 + 2 * i) (1 + i) (anns i)))) ∧
      (∀ d2, putresources zc d' = some d2 → d2.err = none →
        ∃ (mid rest : List String),
          d2.buffer = d'.buffer ++ mid ++ "2 0 obj" :: "<<" ::
            "/ProcSet [/PDF /Text /ImageB /ImageC /ImageI]" :: rest ∧
          d2.offsets.getD 2 0 = bufLen (d'.buffer ++ mid)) := by
  obtain ⟨anns, offs, hrec, hoff, _, _⟩ := putpages_spec zc d h hn d' he
  refine ⟨anns, offs, ⟨hrec, hoff⟩, ?_⟩
  intro d2 hres herr
  have hst : d'.state ≠ 2 := by
    obtain ⟨pgs, hal⟩ := aliasApply_eq d
    rw [hrec, hal]
    exact h
  obtain ⟨mid, rest, hb, ho, _, _, _⟩ := putresources_spec zc d' d2 hres hst herr
  exact ⟨mid, rest, hb, ho⟩

/-- Witness document: the fresh default document after one `AddPage`
and `endpage` (as `Close` leaves it before serialization). -/
def docPaged : Doc := ((docStd.addPage).getD zeroDoc).endpage

/-- Its `putpages` output. -/
def docPut : Doc := (putpages zcId docPaged).getD zeroDoc

/-- Witness for C8: the claim evaluated on the one-page default
document. -/
theorem c8_theorem_witness :
    putpages zcId docPaged = some docPut ∧
    (∃ (anns : ℕ → List String) (offs : List ℕ),
      (docPut = { aliasApply docPaged with
                    buffer := docPaged.buffer ++
                      ((List.range docPaged.page).flatMap
                        (fun i => pageBlock zcId (aliasApply docPaged) (3 + 2 * i) (1 + i)
                          (anns i)) ++
                       pagesRootBlock docPaged),
                    n := 2 + 2 * docPaged.page, offsets := offs } ∧
       offs.getD 1 0 = bufLen (docPaged.buffer ++ (List.range docPaged.page).flatMap
         (fun i => pageBlock zcId (aliasApply docPaged) (3 + 2 * i) (1 + i) (anns i)))) ∧
      (∀ d2, putresources zcId docPut = some d2 → d2.err = none →
        ∃ (mid rest : List String),
          d2.buffer = docPut.buffer ++ mid ++ "2 0 obj" :: "<<" ::
            "/ProcSet [/PDF /Text /ImageB /ImageC /ImageI]" :: rest ∧
          d2.offsets.getD 2 0 = bufLen (docPut.buffer ++ mid))) :=
  ⟨by decide, c8_theorem zcId docPaged (by decide) (by decide) docPut (by decide)⟩


/-- The lines `putinfo` emits. -/
def putinfoLines (now : String) (dd : Doc) : List String :=
  ["/Producer " ++ textstring ("FPDF " ++ FPDF_VERSION)] ++
  (if 0 < dd.title.length then ["/Title " ++ textstring dd.title] else []) ++
  (if 0 < dd.subject.length then ["/Subject " ++ textstring dd.subject] else []) ++
  (if 0 < dd.author.length then ["/Author " ++ textstring dd.author] else []) ++
  (if 0 < dd.keywords.length then ["/Keywords " ++ textstring dd.keywords] else []) ++
  (if 0 < dd.creator.length then ["/Creator " ++ textstring dd.creator] else []) ++
  ["/CreationDate " ++ textstring ("D:" ++ now)]

theorem putinfo_eq (now : String) (dd : Doc) (h : dd.state ≠ 2) :
    putinfo now dd = { dd with buffer := dd.buffer ++ putinfoLines now dd } := by
  by_cases h1 : 0 < dd.title.length <;>
  by_cases h2 : 0 < dd.subject.length <;>
  by_cases h3 : 0 < dd.author.length <;>
  by_cases h4 : 0 < dd.keywords.length <;>
  by_cases h5 : 0 < dd.creator.length <;>
  simp only [putinfo, putinfoLines, out_eq, h, h1, h2, h3, h4, h5, if_true, if_false,
    ite_true, ite_false, ne_eq, not_false_eq_true, List.append_assoc, List.cons_append,
    List.singleton_append, List.nil_append]

/-- The lines `putcatalog` emits. -/
def putcatalogLines (dd : Doc) : List String :=
  ["/Type /Catalog", "/Pages 1 0 R"] ++
  (if dd.zoomMode = "fullpage" then ["/OpenAction [3 0 R /Fit]"]
   else if dd.zoomMode = "fullwidth" then ["/OpenAction [3 0 R /FitH null]"]
   else if dd.zoomMode = "real" then ["/OpenAction [3 0 R /XYZ null null 1]"] else []) ++
  (if dd.layoutMode = "single" then ["/PageLayout /SinglePage"]
   else if dd.layoutMode = "continuous" then ["/PageLayout /OneColumn"]
   else if dd.layoutMode = "two" then ["/PageLayout /TwoColumnLeft"] else [])

theorem putcatalog_eq (dd : Doc) (h : dd.state ≠ 2) :
    putcatalog dd = { dd with buffer := dd.buffer ++ putcatalogLines dd } := by
  by_cases z1 : dd.zoomMode = "fullpage" <;>
  by_cases z2 : dd.zoomMode = "fullwidth" <;>
  by_cases z3 : dd.zoomMode = "real" <;>
  by_cases l1 : dd.layoutMode = "single" <;>
  by_cases l2 : dd.layoutMode = "continuous" <;>
  by_cases l3 : dd.layoutMode = "two" <;>
  simp only [putcatalog, putcatalogLines, out_eq, h, z1, z2, z3, l1, l2, l3, if_true,
    if_false, ite_true, ite_false, ne_eq, not_false_eq_true, String.reduceEq,
    List.append_assoc, List.cons_append, List.singleton_append, List.nil_append]

theorem pagesLoop_serExt (zc : String → String) (hPt : ℚ) :
    ∀ (count p : ℕ) (d d' : Doc), pagesLoop zc hPt count p d = some d' →
      d.state ≠ 2 → serExt d d' := by
  intro count
  induction count with
  | zero =>
    intro p d d' he h
    simp only [pagesLoop] at he
    injection he with he2
    subst he2
    exact serExt_refl d
  | succ c ih =>
    intro p d d' he h
    simp only [pagesLoop] at he
    rcases hse : pageObjEmit zc hPt d p with _ | dm <;> rw [hse] at he
    · exact Option.noConfusion he
    · obtain ⟨ann0, offs1, hdm, hlen1⟩ := pageObjEmit_spec zc hPt d p h dm hse
      replace he : pagesLoop zc hPt c (p + 1) dm = some d' := he
      have h1 : serExt d dm := by
        rw [hdm]
        refine ⟨⟨_, rfl⟩, rfl, rfl, rfl, ?_⟩
        show d.offsets.length ≤ offs1.length
        rw [hlen1]
        omega
      have hs1 : dm.state ≠ 2 := by rw [serExt_state h1]; exact h
      exact serExt_trans h1 (ih (p + 1) dm d' he hs1)

theorem serExt_putpages (zc : String → String) (d d' : Doc)
    (he : putpages zc d = some d') (h : d.state ≠ 2) : serExt d d' := by
  obtain ⟨pgs, hal⟩ := aliasApply_eq d
  simp only [putpages] at he
  rw [hal] at he
  have hA : serExt d { d with pages := pgs } := ⟨⟨[], by simp⟩, rfl, rfl, rfl, le_rfl⟩
  split at he
  · exact Option.noConfusion he
  next dL heq =>
    have hL : serExt { d with pages := pgs } dL := pagesLoop_serExt zc _ d.page 1 _ dL heq h
    have hsL : dL.state ≠ 2 := by rw [serExt_state hL]; exact h
    split at he
    · exact Option.noConfusion he
    next offs0 heq2 =>
      obtain ⟨h1lt, hset⟩ := goSet_eq heq2
      simp only [out_eq, hsL, ne_eq, not_false_eq_true, List.append_assoc, List.cons_append,
        List.singleton_append, List.nil_append] at he
      injection he with he2
      rw [← he2]
      refine serExt_trans hA (serExt_trans hL ⟨⟨_, rfl⟩, rfl, rfl, rfl, ?_⟩)
      rw [hset]
      simp [List.length_set]


/-! ## Claim C9 -/

theorem putinfoLines_update (now : String) (dd : Doc) (b : List String) (n0 : ℕ)
    (offs : List ℕ) :
    putinfoLines now { dd with buffer := b, n := n0, offsets := offs } =
      putinfoLines now dd := rfl

theorem putcatalogLines_update (dd : Doc) (b : List String) (n0 : ℕ) (offs : List ℕ) :
    putcatalogLines { dd with buffer := b, n := n0, offsets := offs } =
      putcatalogLines dd := rfl

/-- C9: the cross-reference table of a finalized document: after a
prefix `B`, `enddoc` emits `xref`, the subsection header covering
objects `0 .. n`, the free-list record for object 0, then one record
per object `j+1` in ascending object order holding that object's
recorded byte offset zero-padded to 10 digits; each record renders as
20 bytes (19 characters plus the newline `bufLen` counts); the trailer
names the size, root and info objects, and the byte offset of the
`xref` keyword itself (the buffer length of `B`) is emitted after
`startxref`. -/
theorem c9_theorem (zc : String → String) (now : String) (d : Doc)
    (h : d.state ≠ 2) (hde : d.err = none) (dF : Doc)
    (he : enddoc zc now d = some dF) (herr : dF.err = none)
    (hoff : ∀ o ∈ dF.offsets, o < 10 ^ 10) :
    ∃ B : List String,
      dF.buffer = B ++ ["xref", "0 " ++ natStr (dF.n + 1), "0000000000 65535 f "] ++
        (List.range dF.n).map (fun j => pad10 (dF.offsets.getD (j + 1) 0) ++ " 00000 n ") ++
        ["trailer", "<<", "/Size " ++ natStr (dF.n + 1), "/Root " ++ natStr dF.n ++ " 0 R",
         "/Info " ++ natStr (dF.n - 1) ++ " 0 R", ">>", "startxref", natStr (bufLen B),
         "%%EOF"] ∧
      bufLen ["0000000000 65535 f "] = 20 ∧
      (∀ j, bufLen [pad10 (dF.offsets.getD (j + 1) 0) ++ " 00000 n "] = 20) ∧
      dF.state = 3 := by
  simp only [enddoc, Doc.putheader] at he
  split at he
  next hc =>
    rw [hde] at hc
    exact absurd hc (by simp)
  next hc =>
    rw [out_eq d _ h] at he
    split at he
    · exact Option.noConfusion he
    next dP heqP =>
      have hsP : serExt _ dP := serExt_putpages zc _ dP heqP h
      have hP2 : dP.state ≠ 2 := by rw [serExt_state hsP]; exact h
      split at he
      · exact Option.noConfusion he
      next dR heqR =>
        split at he
        next hcf =>
          injection he with he2
          subst he2
          rw [herr] at hcf
          exact absurd hcf (by simp)
        next hcf =>
          have hRerr : dR.err = none := by
            cases hdr : dR.err with
            | none => rfl
            | some e => rw [hdr] at hcf; exact absurd rfl hcf
          obtain ⟨mid, rest, _, _, hRst, _, _⟩ :=
            putresources_spec zc dP dR heqR hP2 hRerr
          have hR2 : dR.state ≠ 2 := by rw [hRst]; exact hP2
          simp only [out_eq, newobj_eq, putinfo_eq, putcatalog_eq, puttrailer, foldl_out,
            hR2, ne_eq, not_false_eq_true, List.append_assoc, List.cons_append,
            List.singleton_append, List.nil_append] at he
          simp only [putinfoLines_update, putcatalogLines_update] at he
          injection he with he2
          refine ⟨dR.buffer ++ (natStr (dR.n + 1) ++ " 0 obj") :: "<<" ::
              (putinfoLines now dR ++ ">>" :: "endobj" ::
                (natStr (dR.n + 1 + 1) ++ " 0 obj") :: "<<" ::
                (putcatalogLines dR ++ [">>", "endobj"])), ?_, by decide, ?_, ?_⟩
          · rw [← he2]
            simp only [List.append_assoc, List.cons_append, List.singleton_append,
              List.nil_append]
          · intro j
            have hlt : dF.offsets.getD (j + 1) 0 < 10 ^ 10 := by
              rcases Nat.lt_or_ge (j + 1) dF.offsets.length with hj | hj
              · have hm : dF.offsets.getD (j + 1) 0 ∈ dF.offsets := by
                  rw [List.getD_eq_getElem _ _ hj]
                  exact List.getElem_mem _
                exact hoff _ hm
              · have : dF.offsets.getD (j + 1) 0 = 0 := by
                  rw [List.getD_eq_getElem?_getD]
                  rw [List.getElem?_eq_none (by omega)]
                  rfl
                rw [this]
                norm_num
            show (pad10 (dF.offsets.getD (j + 1) 0) ++ " 00000 n ").length + 1 + 0 = 20
            rw [String.length_append, pad10_length hlt]
            decide
          · rw [← he2]

/-- The default one-page document after `enddoc`. -/
def docEnd : Doc := (enddoc zcId "20260101120000" docPaged).getD zeroDoc

/-- Witness for C9: the xref layout evaluated on the finalized default
one-page document. -/
theorem c9_theorem_witness :
    enddoc zcId "20260101120000" docPaged = some docEnd ∧
    (∃ B : List String,
      docEnd.buffer = B ++ ["xref", "0 " ++ natStr (docEnd.n + 1), "0000000000 65535 f "] ++
        (List.range docEnd.n).map
          (fun j => pad10 (docEnd.offsets.getD (j + 1) 0) ++ " 00000 n ") ++
        ["trailer", "<<", "/Size " ++ natStr (docEnd.n + 1),
         "/Root " ++ natStr docEnd.n ++ " 0 R",
         "/Info " ++ natStr (docEnd.n - 1) ++ " 0 R", ">>", "startxref",
         natStr (bufLen B), "%%EOF"] ∧
      bufLen ["0000000000 65535 f "] = 20 ∧
      (∀ j, bufLen [pad10 (docEnd.offsets.getD (j + 1) 0) ++ " 00000 n "] = 20) ∧
      docEnd.state = 3) :=
  ⟨by decide, c9_theorem zcId "20260101120000" docPaged (by decide) (by decide) docEnd
    (by decide) (by decide) (by decide)⟩


theorem out_err (d : Doc) (s : String) : (d.out s).err = d.err := by
  unfold Doc.out
  split <;> rfl

theorem newobj_err (d : Doc) : d.newobj.err = d.err := by
  unfold Doc.newobj
  rw [out_err]

theorem foldl_out_err {α : Type} (f : α → String) :
    ∀ (l : List α) (d : Doc), (l.foldl (fun acc x => acc.out (f x)) d).err = d.err := by
  intro l
  induction l with
  | nil => intro d; rfl
  | cons x t ih =>
    intro d
    rw [List.foldl_cons, ih, out_err]

theorem putinfo_err (now : String) (dd : Doc) : (putinfo now dd).err = dd.err := by
  simp only [putinfo, apply_ite Doc.err, out_err, ite_self]

theorem putcatalog_err (dd : Doc) : (putcatalog dd).err = dd.err := by
  simp only [putcatalog, apply_ite Doc.err, out_err, ite_self]

theorem puttrailer_err (dd : Doc) : (puttrailer dd).err = dd.err := by
  simp only [puttrailer, out_err]

/-- `pageObjEmit` cannot fault on a page without links. -/
theorem pageObjEmit_isSome (zc : String → String) (hPt : ℚ) (d : Doc) (pg : ℕ)
    (h : d.state ≠ 2) (hpl : d.pageLinks.getD pg [] = []) :
    (pageObjEmit zc hPt d pg).isSome = true := by
  simp only [pageObjEmit, out_eq, newobj_eq, Doc.putstream, h, ne_eq, not_false_eq_true]
  rcases hms : iassocGet d.pageSizes pg with _ | sz <;>
    simp only [hms, out_eq, newobj_eq, Doc.putstream, h, ne_eq, not_false_eq_true, hpl,
      List.length_nil, lt_self_iff_false, if_false, ite_false, Option.isSome_some]

/-- `putpages` cannot fault on a one-page document without links. -/
theorem putpages_isSome (zc : String → String) (d : Doc) (h : d.state ≠ 2)
    (hpage : d.page = 1) (hpl : d.pageLinks.getD 1 [] = []) :
    (putpages zc d).isSome = true := by
  obtain ⟨pgs, hal⟩ := aliasApply_eq d
  have h' : ({ d with page := 1, pages := pgs } : Doc).state ≠ 2 := h
  have hpl' : ({ d with page := 1, pages := pgs } : Doc).pageLinks.getD 1 [] = [] := hpl
  simp only [putpages, hal, hpage, pagesLoop]
  rcases hpe : pageObjEmit zc
      (if d.defOrientation = "P" then d.defPageSize.ht * d.k else d.defPageSize.wd * d.k)
      { d with page := 1, pages := pgs } 1 with _ | d1
  · exact absurd (pageObjEmit_isSome zc _ { d with page := 1, pages := pgs } 1 h' hpl')
      (by rw [hpe]; simp)
  · simp only [hpe]
    obtain ⟨ann0, offs1, hd1, hlen1⟩ := pageObjEmit_spec zc _ _ 1 h' d1 hpe
    have hlt : 1 < d1.offsets.length := by
      rw [hd1]
      show 1 < offs1.length
      rw [hlen1]
      omega
    simp only [goSet, hlt, if_true, ite_true, Option.isSome_some]

/-- On a document with no fonts, font files, difference tables or
images, `putresources` emits only the resource dictionary and does not
fault or latch an error. -/
theorem putresources_empty_run (zc : String → String) (dP : Doc) (h2 : dP.state ≠ 2)
    (herr : dP.err = none) (hfonts : dP.fonts = []) (hff : dP.fontFiles = [])
    (hdiffs : dP.diffs = []) (himgs : dP.images = []) (hoffs : 2 < dP.offsets.length) :
    ∃ dR, putresources zc dP = some dR ∧ dR.err = none := by
  have hval : putresources zc dP = some (Doc.out (Doc.out (putresourcedict
      (Doc.out (Doc.out { dP with offsets := dP.offsets.set 2 (bufLen dP.buffer) }
        "2 0 obj") "<<")) ">>") "endobj") := by
    simp only [putresources, Doc.putfonts, putdiffs, putimagesLoop, herr, hfonts, hff,
      hdiffs, himgs, List.foldl_nil, Option.isSome_none, Bool.false_eq_true, if_false,
      ite_false, putfontFiles, putfontsLoop, goSet, hoffs, if_true, ite_true]
  refine ⟨_, hval, ?_⟩
  have hst2 : (Doc.out (Doc.out
      { dP with offsets := dP.offsets.set 2 (bufLen dP.buffer) } "2 0 obj") "<<").state ≠ 2 := by
    rw [out_state, out_state]
    exact h2
  obtain ⟨rest0, hrd⟩ := putresourcedict_ext _ hst2
  rw [out_err, out_err, hrd]
  show (Doc.out (Doc.out { dP with offsets := dP.offsets.set 2 (bufLen dP.buffer) }
    "2 0 obj") "<<").err = none
  rw [out_err, out_err]
  exact herr


theorem enddoc_parts (zc : String → String) (now : String) (d dF : Doc)
    (h : d.state ≠ 2) (hde : d.err = none) (he : enddoc zc now d = some dF)
    (herr : dF.err = none) :
    ∃ dP dR : Doc,
      putpages zc { d with buffer := d.buffer ++ ["%PDF-" ++ d.pdfVersion] } = some dP ∧
      putresources zc dP = some dR ∧
      dF.state = 3 ∧ dF.page = dR.page ∧ dF.pageSizes = dR.pageSizes ∧
      ∃ ext, dF.buffer = dR.buffer ++ ext := by
  simp only [enddoc, Doc.putheader] at he
  split at he
  next hc =>
    rw [hde] at hc
    exact absurd hc (by simp)
  next hc =>
    rw [out_eq d _ h] at he
    split at he
    · exact Option.noConfusion he
    next dP heqP =>
      have hsP : serExt _ dP := serExt_putpages zc _ dP heqP h
      have hP2 : dP.state ≠ 2 := by rw [serExt_state hsP]; exact h
      split at he
      · exact Option.noConfusion he
      next dR heqR =>
        split at he
        next hcf =>
          injection he with he2
          subst he2
          rw [herr] at hcf
          exact absurd hcf (by simp)
        next hcf =>
          have hRerr : dR.err = none := by
            cases hdr : dR.err with
            | none => rfl
            | some e => rw [hdr] at hcf; exact absurd rfl hcf
          obtain ⟨mid, rest, _, _, hRst, _, _⟩ :=
            putresources_spec zc dP dR heqR hP2 hRerr
          have hR2 : dR.state ≠ 2 := by rw [hRst]; exact hP2
          simp only [out_eq, newobj_eq, putinfo_eq, putcatalog_eq, puttrailer, foldl_out,
            hR2, ne_eq, not_false_eq_true, List.append_assoc, List.cons_append,
            List.singleton_append, List.nil_append] at he
          simp only [putinfoLines_update, putcatalogLines_update] at he
          injection he with he2
          refine ⟨dP, dR, heqP, heqR, ?_, ?_, ?_, ?_⟩
          · rw [← he2]
          · rw [← he2]
          · rw [← he2]
          · rw [← he2]
            exact ⟨_, rfl⟩

theorem enddoc_err_none (zc : String → String) (now : String) (d dF : Doc)
    (h : d.state ≠ 2) (hde : d.err = none) (he : enddoc zc now d = some dF)
    (hok : ∀ dP dR,
      putpages zc { d with buffer := d.buffer ++ ["%PDF-" ++ d.pdfVersion] } = some dP →
      putresources zc dP = some dR → dR.err = none) :
    dF.err = none := by
  simp only [enddoc, Doc.putheader] at he
  split at he
  next hc =>
    rw [hde] at hc
    exact absurd hc (by simp)
  next hc =>
    rw [out_eq d _ h] at he
    split at he
    · exact Option.noConfusion he
    next dP heqP =>
      split at he
      · exact Option.noConfusion he
      next dR heqR =>
        have hRerr : dR.err = none := hok dP dR heqP heqR
        split at he
        next hcf =>
          injection he with he2
          subst he2
          exact hRerr
        next hcf =>
          injection he with he2
          rw [← he2]
          simp only [out_err, newobj_err, putinfo_err, putcatalog_err, puttrailer_err,
            foldl_out_err]
          exact hRerr

set_option maxHeartbeats 1000000 in
/-- A one-page, no-font, no-image document always finalizes: `enddoc`
succeeds, closes the document and leaves a page object in the buffer. -/
theorem enddoc_run (zc : String → String) (now : String) (d2 : Doc)
    (h2 : d2.state ≠ 2) (herr : d2.err = none) (hpage : d2.page = 1) (hn : d2.n = 2)
    (hpl : d2.pageLinks.getD 1 [] = []) (hfonts : d2.fonts = []) (hff : d2.fontFiles = [])
    (hdiffs : d2.diffs = []) (himgs : d2.images = []) :
    ∃ dF, enddoc zc now d2 = some dF ∧ dF.state = 3 ∧ dF.page = 1 ∧
      dF.pageSizes = d2.pageSizes ∧ "<</Type /Page" ∈ dF.buffer := by
  have hD0st : ({ d2 with buffer := d2.buffer ++ ["%PDF-" ++ d2.pdfVersion] } : Doc).state ≠ 2 :=
    h2
  have hD0pg : ({ d2 with buffer := d2.buffer ++ ["%PDF-" ++ d2.pdfVersion] } : Doc).page = 1 :=
    hpage
  have hD0pl : ({ d2 with buffer := d2.buffer ++ ["%PDF-" ++ d2.pdfVersion] } : Doc).pageLinks.getD
      1 [] = [] := hpl
  have hD0n : ({ d2 with buffer := d2.buffer ++ ["%PDF-" ++ d2.pdfVersion] } : Doc).n = 2 := hn
  have hps := putpages_isSome zc _ hD0st hD0pg hD0pl
  rw [Option.isSome_iff_exists] at hps
  obtain ⟨dP, hP⟩ := hps
  obtain ⟨anns, offs, hPrec, hPoff, hPle, hPge⟩ := putpages_spec zc _ hD0st hD0n dP hP
  obtain ⟨pgs0, hal0⟩ :=
    aliasApply_eq { d2 with buffer := d2.buffer ++ ["%PDF-" ++ d2.pdfVersion] }
  have hPst : dP.state ≠ 2 := by rw [hPrec, hal0]; exact h2
  have hPerr : dP.err = none := by rw [hPrec, hal0]; exact herr
  have hPfonts : dP.fonts = [] := by rw [hPrec, hal0]; exact hfonts
  have hPff : dP.fontFiles = [] := by rw [hPrec, hal0]; exact hff
  have hPdiffs : dP.diffs = [] := by rw [hPrec, hal0]; exact hdiffs
  have hPimgs : dP.images = [] := by rw [hPrec, hal0]; exact himgs
  have hPpage : dP.page = 1 := by rw [hPrec, hal0]; exact hpage
  have hPsizes : dP.pageSizes = d2.pageSizes := by rw [hPrec, hal0]
  have hPoffslen : 2 < dP.offsets.length := by
    have h5 := hPge (le_of_eq hD0pg.symm)
    rw [hPrec]
    show 2 < offs.length
    omega
  have hmem : "<</Type /Page" ∈ dP.buffer := by
    rw [hPrec]
    show "<</Type /Page" ∈
      ({ d2 with buffer := d2.buffer ++ ["%PDF-" ++ d2.pdfVersion] } : Doc).buffer ++ _
    rw [hD0pg]
    simp [pageBlock]
  obtain ⟨dR, hres, hRerr⟩ :=
    putresources_empty_run zc dP hPst hPerr hPfonts hPff hPdiffs hPimgs hPoffslen
  obtain ⟨mid, rest, hRbuf, _, hRst, hRpage, hRsizes⟩ :=
    putresources_spec zc dP dR hres hPst hRerr
  have hsucc2 : (enddoc zc now d2).isSome = true := by
    simp only [enddoc, Doc.putheader, herr, Option.isSome_none, Bool.false_eq_true,
      if_false, ite_false]
    rw [out_eq d2 _ h2, hP]
    simp only [hres, hRerr, Option.isSome_none, Bool.false_eq_true, if_false, ite_false,
      Option.isSome_some]
  rw [Option.isSome_iff_exists] at hsucc2
  obtain ⟨dF, hend⟩ := hsucc2
  have hok : ∀ dP' dR',
      putpages zc { d2 with buffer := d2.buffer ++ ["%PDF-" ++ d2.pdfVersion] } = some dP' →
      putresources zc dP' = some dR' → dR'.err = none := by
    intro dP' dR' hP2' hres2'
    obtain rfl : dP' = dP := Option.some.inj (hP2'.symm.trans hP)
    obtain rfl : dR' = dR := Option.some.inj (hres2'.symm.trans hres)
    exact hRerr
  have hFerr := enddoc_err_none zc now d2 dF h2 herr hend hok
  obtain ⟨dP', dR', hP', hres', hFst, hFpage, hFsizes, ext, hFbuf⟩ :=
    enddoc_parts zc now d2 dF h2 herr hend hFerr
  have hdP : dP' = dP := Option.some.inj (hP'.symm.trans hP)
  subst hdP
  have hdR : dR' = dR := Option.some.inj (hres'.symm.trans hres)
  subst hdR
  refine ⟨dF, hend, hFst, ?_, ?_, ?_⟩
  · rw [hFpage, hRpage, hPpage]
  · rw [hFsizes, hRsizes, hPsizes]
  · rw [hFbuf, hRbuf]
    simp only [List.mem_append, List.mem_cons]
    left
    left
    left
    exact hmem


set_option maxHeartbeats 2000000 in
/-- `AddPage` on a fresh document (no current font, zero pages) opens
page 1 without touching the document buffer, the object counter, the
offsets, the page-size table or the resource tables. -/
theorem addPage_fresh (d : Doc) (herr : d.err = none) (hfam : d.fontFamily = "")
    (hpage : d.page = 0) (hor : d.defOrientation = "P" ∨ d.defOrientation = "L") :
    ∃ d1, d.addPage = some d1 ∧ d1.page = 1 ∧ d1.state = 2 ∧ d1.err = none ∧
      d1.n = d.n ∧ d1.buffer = d.buffer ∧ d1.offsets = d.offsets ∧
      d1.pageSizes = d.pageSizes ∧ d1.pageLinks = d.pageLinks ++ [[]] ∧
      d1.fonts = d.fonts ∧ d1.fontFiles = d.fontFiles ∧ d1.diffs = d.diffs ∧
      d1.images = d.images := by
  have hSUP : strToUpper (strTake "P" 1) = "P" := by decide
  have hSUL : strToUpper (strTake "L" 1) = "L" := by decide
  rcases hor with hO | hO <;>
    simp only [Doc.addPage, Doc.addPageFormat, Doc.beginpage, Doc.endpage, Doc.out,
      herr, hfam, hpage, hO, hSUP, hSUL, Option.isSome_none, Bool.false_eq_true, ne_eq,
      String.reduceEq, not_false_eq_true, not_true_eq_false, if_true, if_false,
      ite_true, ite_false, lt_self_iff_false, eq_self_iff_true, and_false, false_and,
      and_true, true_and, or_false, false_or, or_self, not_not,
      apply_ite Doc.page, apply_ite Doc.n, apply_ite Doc.offsets, apply_ite Doc.buffer,
      apply_ite Doc.pages, apply_ite Doc.state, apply_ite Doc.err,
      apply_ite Doc.pageSizes, apply_ite Doc.pageLinks, apply_ite Doc.fonts,
      apply_ite Doc.fontFiles, apply_ite Doc.diffs, apply_ite Doc.images,
      apply_ite Doc.lMargin, apply_ite Doc.tMargin, apply_ite Doc.x, apply_ite Doc.y,
      apply_ite Doc.fontFamily, apply_ite Doc.curOrientation,
      apply_ite Doc.curPageSize, apply_ite Doc.defOrientation,
      apply_ite Doc.defPageSize, apply_ite Doc.wPt, apply_ite Doc.hPt,
      apply_ite Doc.bMargin, apply_ite Doc.pageBreakTrigger, apply_ite Doc.w,
      apply_ite Doc.h, apply_ite Doc.k, apply_ite Doc.capStyle,
      apply_ite Doc.lineWidth, apply_ite Doc.drawColor, apply_ite Doc.fillColor,
      apply_ite Doc.textColor, apply_ite Doc.colorFlag, apply_ite Doc.ws,
      apply_ite Doc.underline, apply_ite Doc.fontStyle, apply_ite Doc.fontSizePt,
      ite_self] <;>
    exact ⟨_, rfl, by simp [apply_ite Doc.page, apply_ite Doc.state, apply_ite Doc.err,
      apply_ite Doc.n, apply_ite Doc.buffer, apply_ite Doc.offsets,
      apply_ite Doc.pageSizes, apply_ite Doc.pageLinks, apply_ite Doc.fonts,
      apply_ite Doc.fontFiles, apply_ite Doc.diffs, apply_ite Doc.images, ite_self,
      herr, hpage]⟩


/-! ## Claim C10 -/

/-- C10: `Close` on a zero-page document with no latched error first
implicitly adds one page with the default orientation and size (the
page-size override table stays empty, so the page uses the default
format), then finalizes: the closed document has exactly one page and
its buffer holds a page object. -/
theorem c10_theorem (zc : String → String) (now : String) (d : Doc)
    (herr : d.err = none) (hst3 : d.state ≠ 3)
    (hfam : d.fontFamily = "") (hpage : d.page = 0)
    (hplk : d.pageLinks = [[]]) (hn : d.n = 2) (hps : d.pageSizes = [])
    (hfonts : d.fonts = []) (hff : d.fontFiles = []) (hdiffs : d.diffs = [])
    (himgs : d.images = [])
    (hor : d.defOrientation = "P" ∨ d.defOrientation = "L") :
    ∃ dF, close zc now d = some dF ∧ dF.page = 1 ∧ dF.state = 3 ∧
      dF.pageSizes = [] ∧ "<</Type /Page" ∈ dF.buffer := by
  obtain ⟨d1, hadd, h1page, h1state, h1err, h1n, h1buf, h1offs, h1sizes, h1links,
    h1fonts, h1ff, h1diffs, h1imgs⟩ := addPage_fresh d herr hfam hpage hor
  obtain ⟨dF, hend, hFst, hFpage, hFsizes, hFmem⟩ := enddoc_run zc now d1.endpage
    (by simp [Doc.endpage])
    (by simp [Doc.endpage, h1err])
    (by simp [Doc.endpage, h1page])
    (by simp [Doc.endpage, h1n, hn])
    (by simp [Doc.endpage, h1links, hplk])
    (by simp [Doc.endpage, h1fonts, hfonts])
    (by simp [Doc.endpage, h1ff, hff])
    (by simp [Doc.endpage, h1diffs, hdiffs])
    (by simp [Doc.endpage, h1imgs, himgs])
  refine ⟨dF, ?_, hFpage, hFst, ?_, hFmem⟩
  · simp only [close, herr, Option.isSome_none, Bool.false_eq_true, if_false, ite_false,
      hst3, hpage, if_true, ite_true, eq_self_iff_true]
    rw [hadd]
    simp only [h1err, Option.isSome_none, Bool.false_eq_true, and_false, if_false,
      ite_false]
    exact hend
  · rw [hFsizes]
    simp [Doc.endpage, h1sizes, hps]

/-- Witness for C10: `Close` of the fresh default zero-page document
adds the implicit page and closes. -/
theorem c10_theorem_witness :
    ∃ dF, close zcId "20260101120000" docStd = some dF ∧ dF.page = 1 ∧ dF.state = 3 ∧
      dF.pageSizes = [] ∧ "<</Type /Page" ∈ dF.buffer :=
  c10_theorem zcId "20260101120000" docStd (by decide) (by decide) (by decide)
    (by decide) (by decide) (by decide) (by decide) (by decide) (by decide) (by decide)
    (by decide) (Or.inl (by decide))


/-! ## Claim C7 -/

/-- The spec's words for the internal-link target height: the target
page's override size when that page has one, otherwise the document
default page height in points. -/
def destPageHeightSpec (pageSizes : List (ℕ × SizeType)) (hPt : ℚ) (page : ℕ) : ℚ :=
  match iassocGet pageSizes page with
  | some sz => sz.ht
  | none => hPt

/-- C7: for an internal link annotation, `putpages` emits a `/Dest`
whose Y ordinate is the target page height (override size if present,
else the default height in points) minus the stored link ordinate times
the scale factor; an external link annotation instead embeds the
literal URI string. -/
theorem c7_theorem (links : List IntLinkType) (pageSizes : List (ℕ × SizeType))
    (hPt k : ℚ) (pl : LinkType) :
    (pl.link = 0 →
      annotStr links pageSizes hPt k pl =
        some (annotRect pl ++ "/A <</S /URI /URI " ++ textstring pl.linkStr ++ ">>>>")) ∧
    (∀ l : IntLinkType, pl.link ≠ 0 → links.get? pl.link = some l →
      annotStr links pageSizes hPt k pl =
        some (annotRect pl ++ "/Dest [" ++ natStr (1 + 2 * l.page) ++ " 0 R /XYZ 0 " ++
          fmtFixed 2 (destPageHeightSpec pageSizes hPt l.page - l.y * k) ++ " null]>>")) := by
  constructor
  · intro h0
    simp [annotStr, h0]
  · intro l h0 hl
    simp only [annotStr, if_neg h0, hl, destPageHeightSpec]

/-- Witness for C7: both branches at concrete inputs.  The link table
holds a link to page 2, which carries an override size of height 200
while the default height is 800; the emitted ordinate is
`200 - 5*2 = 190.00`.  The external annotation embeds `(http://x)`. -/
theorem c7_theorem_witness :
    annotStr [⟨1, 0⟩, ⟨2, 5⟩] [(2, ⟨100, 200⟩)] 800 2
        { x := 1, y := 2, wd := 3, ht := 4, link := 0, linkStr := "http://x" } =
      some (annotRect { x := 1, y := 2, wd := 3, ht := 4, link := 0, linkStr := "http://x" } ++
        "/A <</S /URI /URI " ++ textstring "http://x" ++ ">>>>") ∧
    annotStr [⟨1, 0⟩, ⟨2, 5⟩] [(2, ⟨100, 200⟩)] 800 2
        { x := 1, y := 2, wd := 3, ht := 4, link := 1, linkStr := "" } =
      some (annotRect { x := 1, y := 2, wd := 3, ht := 4, link := 1, linkStr := "" } ++
        "/Dest [" ++ natStr (1 + 2 * 2) ++ " 0 R /XYZ 0 " ++
        fmtFixed 2 (destPageHeightSpec [(2, ⟨100, 200⟩)] 800 2 - 5 * 2) ++ " null]>>") :=
  ⟨(c7_theorem [⟨1, 0⟩, ⟨2, 5⟩] [(2, ⟨100, 200⟩)] 800 2
      { x := 1, y := 2, wd := 3, ht := 4, link := 0, linkStr := "http://x" }).1 rfl,
   (c7_theorem [⟨1, 0⟩, ⟨2, 5⟩] [(2, ⟨100, 200⟩)] 800 2
      { x := 1, y := 2, wd := 3, ht := 4, link := 1, linkStr := "" }).2
     ⟨2, 5⟩ (by decide) rfl⟩

end GoFpdf
